import Mathlib

/-!
# The `View` layer of package `blink` (src/view.go)

A shallow embedding of the listener registries, the closing veto, the object
pools with their destroy cascade, the deferred script runs, the delegated DOM
events and the unused file paths of `view.go`, followed by the theorems that
settle the claims of the specification against it.

Conventions of the embedding.

* A Go `map[K]V` is a `GoMap K V`: a list of entries with pairwise different
  keys. `m[k] = x` is `GoMap.set`, `delete(m, k)` is `GoMap.delete`, `x, ok := m[k]`
  is `GoMap.get`. The position of an entry in the list carries no meaning: a
  `for ... range m` visits the entries in the order chosen by a `RangeOrder`,
  which may be any permutation, as in Go.
* A `*View` is an address (a `Nat`); `Blink.mem` holds the object behind each
  address. Closures are first-order values naming the function literal that
  built them together with the variables it captured.
* `utils.RandString` is not part of the sources under study: the token it
  returns is an argument `key` of the function that calls it.
* What the code does to the engine and to application callbacks is appended
  to `Blink.log`.
* A loop without a bound takes a number of rounds `fuel`, and `none` says that
  it has not returned within them.
* The script of `AddEventListener` is a text. What the engine makes of the
  string literals that `fmt.Sprintf` fills in is `jsStringLiteral`, which reads
  plain characters and the escapes of one character and gives `none` on every
  other text.
* The file system is a value `FileSystem`; `os.Stat`, `os.Create` and `Write`
  may each fail on a path.
-/

namespace MiniBlink

/-! ## Go maps -/

/-- A Go map: entries with pairwise different keys, in no particular order. -/
structure GoMap (K : Type) (V : Type) where
  entries : List (K × V)
  nodup : (entries.map Prod.fst).Nodup

namespace GoMap

variable {K V : Type} [DecidableEq K]

/-- The value of `make(map[K]V)`. -/
def empty : GoMap K V := ⟨[], List.nodup_nil⟩

/-- The lookup `x, ok := m[k]`. -/
def get (m : GoMap K V) (k : K) : Option V :=
  (m.entries.find? (fun e => decide (e.1 = k))).map Prod.snd

/-- The statement `delete(m, k)`. -/
def delete (m : GoMap K V) (k : K) : GoMap K V :=
  ⟨m.entries.filter (fun e => decide (e.1 ≠ k)),
    m.nodup.sublist (List.Sublist.map _ (List.filter_sublist _))⟩

/-- The assignment `m[k] = x`: a new entry, or a new value for the entry of `k`. -/
def set (m : GoMap K V) (k : K) (x : V) : GoMap K V :=
  ⟨m.entries.filter (fun e => decide (e.1 ≠ k)) ++ [(k, x)], by
    rw [List.map_append, List.nodup_append]
    refine ⟨m.nodup.sublist (List.Sublist.map _ (List.filter_sublist _)), by simp, ?_⟩
    intro a ha hb
    simp only [List.map_cons, List.map_nil, List.mem_singleton] at hb
    subst hb
    simp [List.mem_filter] at ha⟩

/-- The value of `len(m)`. -/
def len (m : GoMap K V) : Nat := m.entries.length

/-- The keys present in the map. -/
def keys (m : GoMap K V) : List K := m.entries.map Prod.fst

end GoMap

/-- The order in which one `for ... range` statement visits the entries of a
map: Go leaves it unspecified, so it is any rearrangement of the entries. -/
structure RangeOrder where
  pick : {α : Type} → List α → List α
  perm : ∀ {α : Type} (l : List α), (pick l).Perm l

/-- The order that visits the entries as they are stored. -/
def RangeOrder.stored : RangeOrder := ⟨fun l => l, fun l => List.Perm.refl l⟩

/-- The order that starts at the entry stored at position `n` and wraps round. -/
def RangeOrder.rotated (n : Nat) : RangeOrder := ⟨fun l => l.rotate n, fun l => List.rotate_perm l n⟩

/-- The order that visits the entries last to first. -/
def RangeOrder.reversed : RangeOrder := ⟨fun l => l.reverse, fun l => List.reverse_perm l⟩

/-- The statement `for k, x := range m { body }` over the map `sel s` of the
state `s`, where the body may delete entries of that map: an entry deleted
before it is reached is not produced. The second component lists the entries
the body was run on, in order. -/
def goRangeLoop {S K V : Type} [DecidableEq K] (sel : S → GoMap K V) (body : K → V → S → S) :
    List (K × V) → S → S × List (K × V)
  | [], s => (s, [])
  | (k, _) :: rest, s =>
    match (sel s).get k with
    | none => goRangeLoop sel body rest s
    | some x =>
      let r := goRangeLoop sel body rest (body k x s)
      (r.1, (k, x) :: r.2)

/-- A `for ... range` over the map `sel s`, visited in the order `ρ`. -/
def goRange {S K V : Type} [DecidableEq K] (ρ : RangeOrder) (sel : S → GoMap K V)
    (body : K → V → S → S) (s : S) : S × List (K × V) :=
  goRangeLoop sel body (ρ.pick (sel s).entries) s

/-! ## Data model -/

/-- An argument of a call that leaves the package. -/
inductive Arg where
  | num (n : Nat)
  | int (i : Int)
  | str (s : String)
  | flag (b : Bool)
  | bytes (b : List Nat)
  deriving DecidableEq

/-- What the code does to the outside, in the order it happens. -/
inductive Effect where
  /-- The statement `locker.Lock()`. -/
  | lock
  /-- The statement `locker.Unlock()`. -/
  | unlock
  /-- A call `v.mb.CallFunc(fn, args...)` into the engine. -/
  | call (fn : String) (args : List Arg)
  /-- A callback supplied by the application is run on these arguments. -/
  | callback (id : Nat) (args : List Arg)
  /-- The call `Destroy()` on the window of the view at this address. -/
  | windowDestroy (v : Nat)
  /-- The call `mb.Downloader.Download(url)`. -/
  | download (url : String)
  deriving DecidableEq

/-- A callback supplied by the application: its body is not part of the
package, so it is known by an identity only. -/
structure AppCallback where
  id : Nat
  deriving DecidableEq

/-- An `OnClosingCallback`, `func() bool`: returning `false` refuses to close. -/
structure OnClosingCallback where
  id : Nat
  run : Unit → Bool

/-- An `OnDestroyCallback`, `func()`. -/
inductive OnDestroyCallback where
  /-- The function literal that `addToPool` passes to `OnDestroy`; it captures `v`. -/
  | poolCleanup (v : Nat)
  | app (id : Nat)
  deriving DecidableEq

/-- An `OnDocumentReadyCallback`, `func(frame WkeWebFrameHandle)`. -/
inductive OnDocumentReadyCallback where
  /-- The function literal of `RunJS`; it captures `v`, `script` and `stop`,
  and `stop` captures the token of the registration. -/
  | runJS (v : Nat) (script : String) (stop : String)
  /-- The function literal of `RunJsByFrame`. -/
  | runJsByFrame (v : Nat) (frame : Nat) (script : String) (isInClosure : Bool) (stop : String)
  | app (id : Nat)
  deriving DecidableEq

/-- An `OnDidCreateScriptContextCallback`. -/
inductive OnDidCreateScriptContextCallback where
  /-- The function literal of `injectBootScripts`; it captures `v` and `script`. -/
  | bootScripts (v : Nat) (script : String)
  | app (id : Nat)
  deriving DecidableEq

/-- An `OnDownloadCallback`, `func(url string)`. -/
inductive OnDownloadCallback where
  /-- The function literal that `NewView` registers: `view.mb.Downloader.Download(url)`. -/
  | download (v : Nat)
  | app (id : Nat)
  deriving DecidableEq

/-- The `Window` of a view; only its handle is read by `view.go`. -/
structure Window where
  Hwnd : Nat
  deriving DecidableEq

/-- The struct `View`. The fields `DevTools`, `mb` and `onLoadUrlBeginCallbacks`
play no part in what follows and are left out; `mb` is the one `Blink` state. -/
structure View where
  Hwnd : Nat
  Window : Window
  parent : Option Nat
  eventCallbacks : GoMap String AppCallback
  onClosingCallbacks : GoMap String OnClosingCallback
  onDestroyCallbacks : GoMap String OnDestroyCallback
  onLoadUrlEndCallbacks : GoMap String AppCallback
  onDocumentReadyCallbacks : GoMap String OnDocumentReadyCallback
  onTitleChangedCallbacks : GoMap String AppCallback
  onDownloadCallbacks : GoMap String OnDownloadCallback
  onDidCreateScriptContextCallbacks : GoMap String OnDidCreateScriptContextCallback

/-- What `view.go` reads from the engine and from native memory. A read is
not recorded in the log. -/
structure Engine where
  /-- The result of `wkeIsDocumentReady` for a view handle. -/
  isDocumentReady : Nat → Bool
  /-- The result of `wkeIsMainFrame` for a view handle and a frame. -/
  isMainFrame : Nat → Nat → Bool
  /-- The text behind a native string: `PtrToString(p)`, `mb.GetString(p)`. -/
  stringAt : Nat → String
  /-- The bytes behind a native buffer: `CopyBytes(buf, len)`. -/
  bytesAt : Nat → Nat → List Nat

/-- The part of `*Blink` that `view.go` reads and writes, with the objects
behind the `*View` addresses. -/
structure Blink where
  /-- The pool `mb.views`, `map[WkeHandle]*View`. -/
  views : GoMap Nat Nat
  /-- The pool `mb.windows`, `map[WkeHandle]*Window`. -/
  windows : GoMap Nat Window
  bootScripts : List String
  /-- The channels of `mb.IPC` that have a handler. -/
  channels : List String
  engine : Engine
  mem : Nat → View
  log : List Effect

/-- Appends one effect to the log. -/
def Blink.emit (mb : Blink) (e : Effect) : Blink := { mb with log := mb.log ++ [e] }

/-- The call `mb.CallFunc(fn, args...)`, as far as its result is not used. -/
def Blink.CallFunc (mb : Blink) (fn : String) (args : List Arg) : Blink :=
  mb.emit (.call fn args)

/-- An update of the object behind the address `v`. -/
def Blink.modify (mb : Blink) (v : Nat) (f : View → View) : Blink :=
  { mb with mem := Function.update mb.mem v (f (mb.mem v)) }

/-! ## The closing registry (view.go, lines 228-252) -/

/-- The method `OnClosing`; `key` is the result of `utils.RandString(10)`. -/
def View.OnClosing (v : Nat) (key : String) (callback : OnClosingCallback) (mb : Blink) : Blink :=
  mb.modify v fun view =>
    { view with onClosingCallbacks := view.onClosingCallbacks.set key callback }

/-- The function literal `stop` returned by `OnClosing`, which captured `v` and `key`. -/
def View.OnClosing.stop (v : Nat) (key : String) (mb : Blink) : Blink :=
  mb.modify v fun view =>
    { view with onClosingCallbacks := view.onClosingCallbacks.delete key }

/-- The loop of the closing handler over the entries in visiting order: the
first callback that returns `false` ends it with `BoolToPtr(false)`. -/
def View.registerOnClosing.loop : List (String × OnClosingCallback) → Blink → Blink × Bool
  | [], mb => (mb, true)
  | (_, callback) :: rest, mb =>
    let mb := mb.emit (.callback callback.id [])
    if callback.run () then View.registerOnClosing.loop rest mb else (mb, false)

/-- The function literal `handler` that `registerOnClosing` installs for
`wkeOnWindowClosing`. -/
def View.registerOnClosing.handler (ρ : RangeOrder) (v : Nat) (mb : Blink) : Blink × Bool :=
  View.registerOnClosing.loop (ρ.pick (mb.mem v).onClosingCallbacks.entries) mb

/-! ## The destroy registry and the object pools (lines 106-134, 160-162, 254-274) -/

/-- The method `OnDestroy`; `key` is the result of `utils.RandString(10)`. -/
def View.OnDestroy (v : Nat) (key : String) (callback : OnDestroyCallback) (mb : Blink) : Blink :=
  mb.modify v fun view =>
    { view with onDestroyCallbacks := view.onDestroyCallbacks.set key callback }

/-- The function literal `stop` returned by `OnDestroy`, which captured `v` and `key`. -/
def View.OnDestroy.stop (v : Nat) (key : String) (mb : Blink) : Blink :=
  mb.modify v fun view =>
    { view with onDestroyCallbacks := view.onDestroyCallbacks.delete key }

/-- Modelled from the spec: `Window.Destroy` (window.go is not among the
sources), reached through `View.DestroyWindow`, issues a destroy request for
the window of the view to the engine. The request is recorded; what the engine
does with it afterwards is no part of this call. -/
def View.DestroyWindow (v : Nat) (mb : Blink) : Blink := mb.emit (.windowDestroy v)

/-- The inner function literal of the destroy callback of `addToPool`: under
the lock, which its deferred `Unlock` releases at the end, it deletes the
entries of `v` from both pools. -/
def View.addToPool.onDestroy.unregister (v : Nat) (mb : Blink) : Blink :=
  let mb := mb.emit .lock
  let mb := { mb with windows := mb.windows.delete (mb.mem v).Window.Hwnd }
  let mb := { mb with views := mb.views.delete (mb.mem v).Hwnd }
  mb.emit .unlock

/-- The function literal that `addToPool` passes to `OnDestroy`, with its
captured `v`: it first runs the inner function literal, then it ranges over
the views that are left in the pool and destroys those whose parent is `v`. -/
def View.addToPool.onDestroy (ρ : RangeOrder) (v : Nat) (mb : Blink) : Blink :=
  let mb := View.addToPool.onDestroy.unregister v mb
  (goRange ρ (fun mb => mb.views)
    (fun _ child mb => if (mb.mem child).parent = some v then View.DestroyWindow child mb else mb)
    mb).1

/-- The method `addToPool`; `key` is the token drawn by its call of `OnDestroy`. -/
def View.addToPool (v : Nat) (key : String) (mb : Blink) : Blink :=
  let mb := mb.emit .lock
  let mb := { mb with views := mb.views.set (mb.mem v).Hwnd v }
  let mb := { mb with windows := mb.windows.set (mb.mem v).Window.Hwnd (mb.mem v).Window }
  let mb := View.OnDestroy v key (.poolCleanup v) mb
  mb.emit .unlock

/-- Modelled from the spec: `Blink.GetViewByHandle` (blink.go is not among the
sources) is the `Lookup(handle) -> object | not found` of the view pool. -/
def Blink.GetViewByHandle (mb : Blink) (hwnd : Nat) : Option Nat := mb.views.get hwnd

/-- A call `callback()` of an `OnDestroyCallback`. -/
def OnDestroyCallback.invoke (ρ : RangeOrder) : OnDestroyCallback → Blink → Blink
  | .poolCleanup v, mb => View.addToPool.onDestroy ρ v mb
  | .app id, mb => mb.emit (.callback id [])

/-- The loop of the function literal `handler` of `registerOnDestroy`, with
the entries it called; `ρ` orders this loop and `ρ'` the loops of the
callbacks. -/
def View.registerOnDestroy.range (ρ ρ' : RangeOrder) (v : Nat) (mb : Blink) :
    Blink × List (String × OnDestroyCallback) :=
  goRange ρ (fun mb => (mb.mem v).onDestroyCallbacks) (fun _ callback mb => callback.invoke ρ' mb) mb

/-- The function literal `handler` that `registerOnDestroy` installs for
`wkeOnWindowDestroy`; its result is the zero value of `voidRes`. -/
def View.registerOnDestroy.handler (ρ ρ' : RangeOrder) (v : Nat) (mb : Blink) : Blink × Nat :=
  ((View.registerOnDestroy.range ρ ρ' v mb).1, 0)

/-! ## The load-url-end registry (lines 300-322) -/

/-- The method `OnLoadUrlEnd`. -/
def View.OnLoadUrlEnd (v : Nat) (key : String) (callback : AppCallback) (mb : Blink) : Blink :=
  mb.modify v fun view =>
    { view with onLoadUrlEndCallbacks := view.onLoadUrlEndCallbacks.set key callback }

/-- The function literal `stop` returned by `OnLoadUrlEnd`. -/
def View.OnLoadUrlEnd.stop (v : Nat) (key : String) (mb : Blink) : Blink :=
  mb.modify v fun view =>
    { view with onLoadUrlEndCallbacks := view.onLoadUrlEndCallbacks.delete key }

/-- The loop of the function literal `handler` of `registerOnLoadUrlEnd`: the
arguments are decoded once, before the loop. -/
def View.registerOnLoadUrlEnd.range (ρ : RangeOrder) (v : Nat) (url job buf len : Nat)
    (mb : Blink) : Blink × List (String × AppCallback) :=
  let _url := mb.engine.stringAt url
  let _job := job
  let _buf := mb.engine.bytesAt buf len
  goRange ρ (fun mb => (mb.mem v).onLoadUrlEndCallbacks)
    (fun _ callback mb => mb.emit (.callback callback.id [.str _url, .num _job, .bytes _buf])) mb

/-- The function literal `handler` that `registerOnLoadUrlEnd` installs. -/
def View.registerOnLoadUrlEnd.handler (ρ : RangeOrder) (v : Nat) (url job buf len : Nat)
    (mb : Blink) : Blink × Nat :=
  ((View.registerOnLoadUrlEnd.range ρ v url job buf len mb).1, 0)

/-! ## The document-ready registry and deferred scripts (lines 324-397, 554-557) -/

/-- The method `OnDocumentReady`. -/
def View.OnDocumentReady (v : Nat) (key : String) (callback : OnDocumentReadyCallback)
    (mb : Blink) : Blink :=
  mb.modify v fun view =>
    { view with onDocumentReadyCallbacks := view.onDocumentReadyCallbacks.set key callback }

/-- The function literal `stop` returned by `OnDocumentReady`. -/
def View.OnDocumentReady.stop (v : Nat) (key : String) (mb : Blink) : Blink :=
  mb.modify v fun view =>
    { view with onDocumentReadyCallbacks := view.onDocumentReadyCallbacks.delete key }

/-- The method `IsDocumentReady`. -/
def View.IsDocumentReady (v : Nat) (mb : Blink) : Bool :=
  mb.engine.isDocumentReady (mb.mem v).Hwnd

/-- The method `IsMainFrame`. -/
def View.IsMainFrame (v : Nat) (frameId : Nat) (mb : Blink) : Bool :=
  mb.engine.isMainFrame (mb.mem v).Hwnd frameId

/-- The method `RunJS`; `key` is the token drawn by `OnDocumentReady` when the
document is not ready yet. -/
def View.RunJS (v : Nat) (script : String) (key : String) (mb : Blink) : Blink :=
  if View.IsDocumentReady v mb then
    mb.CallFunc "wkeRunJS" [.num (mb.mem v).Hwnd, .str script]
  else
    View.OnDocumentReady v key (.runJS v script key) mb

/-- The method `RunJsByFrame`. -/
def View.RunJsByFrame (v : Nat) (frame : Nat) (script : String) (isInClosure : Bool)
    (key : String) (mb : Blink) : Blink :=
  if View.IsDocumentReady v mb then
    mb.CallFunc "wkeRunJsByFrame" [.num frame, .str script, .flag isInClosure]
  else
    View.OnDocumentReady v key (.runJsByFrame v frame script isInClosure key) mb

/-- A call `callback(frame)` of an `OnDocumentReadyCallback`. The variable
`stop` of `RunJS` is assigned before the callback can be reached, so the test
`stop != nil` succeeds. -/
def OnDocumentReadyCallback.invoke : OnDocumentReadyCallback → Nat → Blink → Blink
  | .runJS v script stop, frame, mb =>
    if !View.IsMainFrame v frame mb then mb
    else
      let mb := mb.CallFunc "wkeRunJS" [.num (mb.mem v).Hwnd, .str script]
      View.OnDocumentReady.stop v stop mb
  | .runJsByFrame v frame script isInClosure stop, readyFrame, mb =>
    if readyFrame ≠ frame then mb
    else
      let mb := mb.CallFunc "wkeRunJsByFrame" [.num frame, .str script, .flag isInClosure]
      View.OnDocumentReady.stop v stop mb
  | .app id, frame, mb => mb.emit (.callback id [.num frame])

/-- The loop of the function literal `cb` of `registerOnDocumentReady`. -/
def View.registerOnDocumentReady.range (ρ : RangeOrder) (v : Nat) (frame : Nat) (mb : Blink) :
    Blink × List (String × OnDocumentReadyCallback) :=
  goRange ρ (fun mb => (mb.mem v).onDocumentReadyCallbacks)
    (fun _ callback mb => callback.invoke frame mb) mb

/-- The function literal `cb` that `registerOnDocumentReady` installs. -/
def View.registerOnDocumentReady.handler (ρ : RangeOrder) (v : Nat) (frame : Nat) (mb : Blink) :
    Blink × Nat :=
  ((View.registerOnDocumentReady.range ρ v frame mb).1, 0)

/-! ## The script-context registry and the boot scripts (lines 136-146, 404-423) -/

/-- The method `OnDidCreateScriptContext`; `key` is the result of `utils.RandString(8)`. -/
def View.OnDidCreateScriptContext (v : Nat) (key : String)
    (callback : OnDidCreateScriptContextCallback) (mb : Blink) : Blink :=
  mb.modify v fun view =>
    { view with
      onDidCreateScriptContextCallbacks := view.onDidCreateScriptContextCallbacks.set key callback }

/-- The function literal `stop` returned by `OnDidCreateScriptContext`. -/
def View.OnDidCreateScriptContext.stop (v : Nat) (key : String) (mb : Blink) : Blink :=
  mb.modify v fun view =>
    { view with
      onDidCreateScriptContextCallbacks := view.onDidCreateScriptContextCallbacks.delete key }

/-- The loop `for _, s := range v.mb.bootScripts { script += s + ";\n" }`. -/
def View.injectBootScripts.script (bootScripts : List String) : String :=
  bootScripts.foldl (fun script s => script ++ (s ++ ";\n")) ""

/-- The method `injectBootScripts`; `key` is the token drawn by its call of
`OnDidCreateScriptContext`. -/
def View.injectBootScripts (v : Nat) (key : String) (mb : Blink) : Blink :=
  let script := View.injectBootScripts.script mb.bootScripts
  View.OnDidCreateScriptContext v key (.bootScripts v script) mb

/-- A call `callback(frame, context, exGroup, worldId)`. -/
def OnDidCreateScriptContextCallback.invoke :
    OnDidCreateScriptContextCallback → Nat → Nat → Int → Int → Blink → Blink
  | .bootScripts v script, _, _, _, _, mb =>
    mb.CallFunc "wkeRunJS" [.num (mb.mem v).Hwnd, .str script]
  | .app id, frame, context, exGroup, worldId, mb =>
    mb.emit (.callback id [.num frame, .num context, .int exGroup, .int worldId])

/-- The loop of the function literal `cb` of `registerOnDidCreateScriptContext`. -/
def View.registerOnDidCreateScriptContext.range (ρ : RangeOrder) (v : Nat)
    (frame context : Nat) (exGroup worldId : Int) (mb : Blink) :
    Blink × List (String × OnDidCreateScriptContextCallback) :=
  goRange ρ (fun mb => (mb.mem v).onDidCreateScriptContextCallbacks)
    (fun _ callback mb => callback.invoke frame context exGroup worldId mb) mb

/-- The function literal `cb` that `registerOnDidCreateScriptContext` installs. -/
def View.registerOnDidCreateScriptContext.handler (ρ : RangeOrder) (v : Nat)
    (frame context : Nat) (exGroup worldId : Int) (mb : Blink) : Blink × Nat :=
  ((View.registerOnDidCreateScriptContext.range ρ v frame context exGroup worldId mb).1, 0)

/-! ## The title-changed and download registries (lines 559-603) -/

/-- The method `OnTitleChanged`. -/
def View.OnTitleChanged (v : Nat) (key : String) (callback : AppCallback) (mb : Blink) : Blink :=
  mb.modify v fun view =>
    { view with onTitleChangedCallbacks := view.onTitleChangedCallbacks.set key callback }

/-- The function literal `stop` returned by `OnTitleChanged`. -/
def View.OnTitleChanged.stop (v : Nat) (key : String) (mb : Blink) : Blink :=
  mb.modify v fun view =>
    { view with onTitleChangedCallbacks := view.onTitleChangedCallbacks.delete key }

/-- The loop of the function literal `cb` of `registerOnTitleChanged`: the
title is decoded once, before the loop. -/
def View.registerOnTitleChanged.range (ρ : RangeOrder) (v : Nat) (title : Nat) (mb : Blink) :
    Blink × List (String × AppCallback) :=
  let _title := mb.engine.stringAt title
  goRange ρ (fun mb => (mb.mem v).onTitleChangedCallbacks)
    (fun _ callback mb => mb.emit (.callback callback.id [.str _title])) mb

/-- The function literal `cb` that `registerOnTitleChanged` installs. -/
def View.registerOnTitleChanged.handler (ρ : RangeOrder) (v : Nat) (title : Nat) (mb : Blink) :
    Blink × Nat :=
  ((View.registerOnTitleChanged.range ρ v title mb).1, 0)

/-- The method `OnDownload`. -/
def View.OnDownload (v : Nat) (key : String) (callback : OnDownloadCallback) (mb : Blink) : Blink :=
  mb.modify v fun view =>
    { view with onDownloadCallbacks := view.onDownloadCallbacks.set key callback }

/-- The function literal `stop` returned by `OnDownload`. -/
def View.OnDownload.stop (v : Nat) (key : String) (mb : Blink) : Blink :=
  mb.modify v fun view =>
    { view with onDownloadCallbacks := view.onDownloadCallbacks.delete key }

/-- A call `callback(link)` of an `OnDownloadCallback`. -/
def OnDownloadCallback.invoke : OnDownloadCallback → String → Blink → Blink
  | .download _, url, mb => mb.emit (.download url)
  | .app id, url, mb => mb.emit (.callback id [.str url])

/-- The loop of the function literal `cb` of `registerOnDownload`. -/
def View.registerOnDownload.range (ρ : RangeOrder) (v : Nat) (url : Nat) (mb : Blink) :
    Blink × List (String × OnDownloadCallback) :=
  let link := mb.engine.stringAt url
  goRange ρ (fun mb => (mb.mem v).onDownloadCallbacks)
    (fun _ callback mb => callback.invoke link mb) mb

/-- The function literal `cb` that `registerOnDownload` installs. -/
def View.registerOnDownload.handler (ρ : RangeOrder) (v : Nat) (url : Nat) (mb : Blink) :
    Blink × Nat :=
  ((View.registerOnDownload.range ρ v url mb).1, 0)

/-! ## Delegated DOM events (lines 425-501) -/

/-- The character of a decimal digit. -/
def digitChar (d : Nat) : Char := Char.ofNat (48 + d)

/-- The digits of `n`, most significant first, put in front of `acc`; `fuel`
bounds the number of digits. -/
def formatUintCore : Nat → Nat → List Char → List Char
  | 0, _, acc => acc
  | fuel + 1, n, acc =>
    if n < 10 then digitChar n :: acc
    else formatUintCore fuel (n / 10) (digitChar (n % 10) :: acc)

/-- The library function `strconv.FormatUint(n, 10)`: the decimal text of `n`. -/
def FormatUint (n : Nat) : String := String.mk (formatUintCore (n + 1) n [])

/-- The value of a decimal digit character. -/
def digitValue (c : Char) : Option Nat :=
  if '0' ≤ c ∧ c ≤ '9' then some (c.toNat - 48) else none

/-- The value of a text of decimal digits read after the value `acc`. -/
def parseDigits : List Char → Nat → Option Nat
  | [], acc => some acc
  | c :: cs, acc =>
    match digitValue c with
    | none => none
    | some d => parseDigits cs (acc * 10 + d)

/-- The library function `strconv.Atoi` for an `int` of `intSize` bits: an
optional sign and at least one decimal digit, with a value that fits; every
other text is an error. -/
def Atoi (intSize : Nat) (s : String) : Option Int :=
  match s.data with
  | [] => none
  | c :: cs =>
    let neg := decide (c = '-')
    let digits := if c = '-' ∨ c = '+' then cs else c :: cs
    if digits = [] then none
    else
      match parseDigits digits 0 with
      | none => none
      | some n =>
        if neg then
          if n ≤ 2 ^ (intSize - 1) then some (-(n : Int)) else none
        else
          if n < 2 ^ (intSize - 1) then some (n : Int) else none

/-- The conversion `WkeHandle(hwnd)` of an `int`: the handle type is an
unsigned integer of the width of `int`, as its conversions to `uintptr` and
`uint64` in `view.go` have it. -/
def WkeHandle.ofInt (intSize : Nat) (hwnd : Int) : Nat := (hwnd % 2 ^ intSize).toNat

/-- The text that `fmt.Sprintf` makes of the script of `AddEventListener`. -/
def View.AddEventListener.script (viewHandle jsIPC selector eventType pre : String) : String :=
  "\n" ++
  "\t(()=>\x7b\n" ++
  "\t\tconst VIEW_HANDLE = '" ++
  viewHandle ++
  "';\n" ++
  "\t\tconst JS_IPC = '" ++
  jsIPC ++
  "';\n" ++
  "\t\tconst selector = '" ++
  selector ++
  "';\n" ++
  "\t\tconst eventType = '" ++
  eventType ++
  "';\n" ++
  "\t\t\n" ++
  "\t\tconst els = document.querySelectorAll(selector);\n" ++
  "\t\t\n" ++
  "\t\tconst handler = function(e) \x7b\n" ++
  "\t\t\t" ++
  pre ++
  "; // pre-event\n" ++
  "\t\t\n" ++
  "\t\t\te.preventDefault();\n" ++
  "\t\t\n" ++
  "\t\t\tconst ipc = window.top[JS_IPC]\n" ++
  "\t\t\tipc.sent('addEventListener', VIEW_HANDLE, selector, eventType)\n" ++
  "\t\t\x7d;\n" ++
  "\t\t\n" ++
  "\t\tfor (let i = 0; i < els.length; i++) \x7b\n" ++
  "\t\t\tels[i].removeEventListener(eventType, handler);\n" ++
  "\t\t\tels[i].addEventListener(eventType, handler);\n" ++
  "\t\t\x7d\n" ++
  "\t\n" ++
  "\t\x7d)();\n" ++
  "\t"

/-- The function literal that `AddEventListener` passes to `mb.IPC.Handle` for
the channel "addEventListener". A text that `Atoi` rejects, a handle without a
view and a key without a callback each end the call with nothing done. -/
def View.AddEventListener.handler (intSize : Nat) (hwndStr selector eventType : String)
    (mb : Blink) : Blink :=
  match Atoi intSize hwndStr with
  | none => mb
  | some hwnd =>
    match mb.GetViewByHandle (WkeHandle.ofInt intSize hwnd) with
    | none => mb
    | some view =>
      let key := selector ++ " " ++ eventType
      match (mb.mem view).eventCallbacks.get key with
      | none => mb
      | some callback => mb.emit (.callback callback.id [])

/-- The statement `if !mb.IPC.HasChannel(name) { mb.IPC.Handle(name, handler) }`:
the channel has a handler afterwards. -/
def Blink.handleChannel (mb : Blink) (name : String) : Blink :=
  if !mb.channels.contains name then { mb with channels := name :: mb.channels } else mb

/-- The method `AddEventListener`; `jsIPC` is the constant `JS_IPC` and `key`
the token that `RunJS` draws when the document is not ready. -/
def View.AddEventListener (jsIPC : String) (v : Nat) (selector eventType : String)
    (callback : AppCallback) (preScripts : List String) (key : String) (mb : Blink) : Blink :=
  let script := View.AddEventListener.script (FormatUint (mb.mem v).Hwnd) jsIPC selector
    eventType (String.intercalate ";" preScripts)
  let mb := mb.handleChannel "addEventListener"
  let key' := selector ++ " " ++ eventType
  let mb := mb.modify v fun view =>
    { view with eventCallbacks := view.eventCallbacks.set key' callback }
  View.RunJS v script key mb

/-- The method `RemoveEventListener`. -/
def View.RemoveEventListener (v : Nat) (selector eventType : String) (mb : Blink) : Blink :=
  let key := selector ++ " " ++ eventType
  mb.modify v fun view => { view with eventCallbacks := view.eventCallbacks.delete key }

/-- The single quote, which opens and closes the string literals of the script
of `AddEventListener`. -/
def jsQuote : Char := Char.ofNat 39

/-- The backslash, which starts an escape in a JavaScript string literal. -/
def jsBackslash : Char := Char.ofNat 92

/-- The characters that break a string literal off when they stand in the
text of the script between two quotes: the line terminators of JavaScript
(line feed, carriage return, U+2028 and U+2029) and the NUL, at which a text
handed over as a C string ends. -/
def jsBreak (c : Char) : Bool :=
  c == Char.ofNat 0 || c == Char.ofNat 10 || c == Char.ofNat 13 || c == Char.ofNat 0x2028 ||
    c == Char.ofNat 0x2029

/-- The character that a backslash followed by `e` stands for in a JavaScript
string literal: the control characters of `b`, `t`, `n`, `v`, `f` and `r`, and
otherwise `e` itself, as for a quote, a backslash or a dot. The escapes that
begin with a digit, `x` or `u` and the line continuation take more than one
character and are not read here: they give `none`. -/
def jsEscape (e : Char) : Option Char :=
  if e = 'b' then some (Char.ofNat 8)
  else if e = 't' then some (Char.ofNat 9)
  else if e = 'n' then some (Char.ofNat 10)
  else if e = 'v' then some (Char.ofNat 11)
  else if e = 'f' then some (Char.ofNat 12)
  else if e = 'r' then some (Char.ofNat 13)
  else if e.isDigit = true ∨ e = 'x' ∨ e = 'u' ∨ jsBreak e = true then none
  else some e

/-- The characters of the value of a string literal, read from the characters
between its quotes. -/
def jsStringLiteral.loop : List Char → Option (List Char)
  | [] => some []
  | [c] =>
    if c = jsQuote ∨ c = jsBackslash ∨ jsBreak c = true then none else some [c]
  | c :: e :: rest =>
    if c = jsQuote ∨ jsBreak c = true then none
    else if c = jsBackslash then
      match jsEscape e with
      | none => none
      | some x => (jsStringLiteral.loop rest).map fun value => x :: value
    else (jsStringLiteral.loop (e :: rest)).map fun value => c :: value

/-- The value that JavaScript gives to `'%s'` in the script of
`AddEventListener` once `fmt.Sprintf` has put `text` in the place of `%s`,
unescaped. The result is `none` when the text is not the inside of one
literal, because of a quote, a line terminator, a NUL or a backslash at its
end, and when it holds an escape that `jsEscape` does not read: the script is
then not the program that its template spells, and nothing is said here of
what it sends. -/
def jsStringLiteral (text : String) : Option String :=
  (jsStringLiteral.loop text.data).map String.mk

/-- The text has no quote, no backslash, no line terminator and no NUL, so
that it stands for itself between two quotes. -/
def jsPlain (s : String) : Prop :=
  ∀ c ∈ s.data, c ≠ jsQuote ∧ c ≠ jsBackslash ∧ jsBreak c = false

instance (s : String) : Decidable (jsPlain s) := by
  unfold jsPlain
  infer_instance

/-- The arguments of the call `ipc.sent('addEventListener', VIEW_HANDLE,
selector, eventType)` of the script that `AddEventListener` injects for the
view `v`, when the pre-event code lets the handler reach that call and binds
none of these names anew: the values of the constants `VIEW_HANDLE`,
`selector` and `eventType`, which the script declares with the literals
`'%s'` of the decimal text of the handle, of the selector and of the event
type. The literal of `JS_IPC` has to be one as well for the script to run. -/
def View.AddEventListener.message (jsIPC : String) (v : Nat) (selector eventType : String)
    (mb : Blink) : Option (String × String × String) :=
  match jsStringLiteral (FormatUint (mb.mem v).Hwnd), jsStringLiteral jsIPC,
    jsStringLiteral selector, jsStringLiteral eventType with
  | some viewHandle, some _, some selector, some eventType =>
    some (viewHandle, selector, eventType)
  | _, _, _, _ => none

/-- One call of the application on the delegated events of a view. -/
inductive EventOp where
  | add (selector eventType : String) (callback : AppCallback) (preScripts : List String)
      (key : String)
  | remove (selector eventType : String)

/-- The effect of one call on the view at address `v`. -/
def EventOp.run (jsIPC : String) (v : Nat) : EventOp → Blink → Blink
  | .add selector eventType callback preScripts key, mb =>
    View.AddEventListener jsIPC v selector eventType callback preScripts key mb
  | .remove selector eventType, mb => View.RemoveEventListener v selector eventType mb

/-- The effect of a sequence of calls, first to last. -/
def EventOp.runAll (jsIPC : String) (v : Nat) (ops : List EventOp) (mb : Blink) : Blink :=
  ops.foldl (fun mb op => op.run jsIPC v mb) mb

/-- The event type of a call. -/
def EventOp.eventType : EventOp → String
  | .add _ eventType _ _ _ => eventType
  | .remove _ eventType => eventType

/-- The callback most recently passed to `AddEventListener` for the pair
`(selector, eventType)` in a sequence of calls and not removed by a later
`RemoveEventListener` for that pair; `before` is the callback of the pair at
the start of the sequence. -/
def EventOp.latest (selector eventType : String) (before : Option AppCallback) :
    List EventOp → Option AppCallback
  | [] => before
  | .add selector' eventType' callback _ _ :: ops =>
    if selector' = selector ∧ eventType' = eventType then
      EventOp.latest selector eventType (some callback) ops
    else EventOp.latest selector eventType before ops
  | .remove selector' eventType' :: ops =>
    if selector' = selector ∧ eventType' = eventType then
      EventOp.latest selector eventType none ops
    else EventOp.latest selector eventType before ops

/-- The callback most recently stored under the text `key` by the
`AddEventListener` calls of a sequence and not deleted by a later
`RemoveEventListener` with the same text `selector + " " + eventType`;
`before` is the callback under `key` at the start of the sequence. -/
def EventOp.latestByKey (key : String) (before : Option AppCallback) :
    List EventOp → Option AppCallback
  | [] => before
  | .add selector eventType callback _ _ :: ops =>
    if selector ++ " " ++ eventType = key then EventOp.latestByKey key (some callback) ops
    else EventOp.latestByKey key before ops
  | .remove selector eventType :: ops =>
    if selector ++ " " ++ eventType = key then EventOp.latestByKey key none ops
    else EventOp.latestByKey key before ops

/-- The text has no space character. -/
def noSpace (s : String) : Prop := ' ' ∉ s.data

instance (s : String) : Decidable (noSpace s) := by
  unfold noSpace
  infer_instance

/-! ## Unused file paths and the files of `SaveWebFrameToPDF` (lines 625-744) -/

/-- The functions of the Go library that `view.go` calls on paths and whose
result depends on the platform: `os.IsPathSeparator`, `filepath.Base`,
`filepath.Dir` and `filepath.Join` of two elements. -/
structure PathLib where
  IsPathSeparator : Char → Bool
  Base : String → String
  Dir : String → String
  Join : String → String → String

/-- The loop of the library function `filepath.Ext`, from the last character
of the path towards the first: it ends at a path separator with the empty
text and at a dot with the text from that dot on. -/
def filepath.Ext.loop (isPathSeparator : Char → Bool) : List Char → List Char → List Char
  | [], _ => []
  | c :: before, after =>
    if isPathSeparator c then []
    else if c = '.' then c :: after
    else filepath.Ext.loop isPathSeparator before (c :: after)

/-- The library function `filepath.Ext`. -/
def filepath.Ext (lib : PathLib) (path : String) : String :=
  String.mk (filepath.Ext.loop lib.IsPathSeparator path.data.reverse [])

/-- The verb `%d` of `fmt.Sprintf` on an `int`. -/
def FormatInt (i : Int) : String :=
  if i < 0 then "-" ++ FormatUint i.natAbs else FormatUint i.toNat

/-- The statement `index++` on an `int` of `intSize` bits, which wraps round. -/
def intIncr (intSize : Nat) (index : Int) : Int :=
  (index + 1 + 2 ^ (intSize - 1)) % 2 ^ intSize - 2 ^ (intSize - 1)

/-- What the package reads and writes of the file system: the content of the
file behind each path, the paths on which `os.Stat` fails with an error that
is not a not-exist error, the paths that `os.Create` cannot open, and the
paths on whose file `Write` fails, with the number of bytes that it writes
before it does. -/
structure FileSystem where
  files : String → Option (List Nat)
  statError : String → Bool
  createError : String → Bool
  writeError : String → Option Nat

/-- The test `_, err := os.Stat(path); os.IsNotExist(err)`. -/
def FileSystem.IsNotExist (fs : FileSystem) (path : String) : Bool :=
  (fs.files path).isNone && !fs.statError path

/-- The library function `os.Create`: the named file is created, or truncated
if it is there already; `none` is the error result. -/
def os.Create (fs : FileSystem) (name : String) : Option FileSystem :=
  if fs.createError name then none
  else some { fs with files := Function.update fs.files name (some []) }

/-- The call `_, err = file.Write(data)` on the file that `os.Create` has just
opened under `name`, with the file system it leaves and whether `err` is
`nil`: the data follow what the file holds, all of them, or the first bytes
of them when the write fails. -/
def FileSystem.Write (fs : FileSystem) (name : String) (data : List Nat) : FileSystem × Bool :=
  match fs.writeError name with
  | none =>
    ({ fs with files := Function.update fs.files name (some ((fs.files name).getD [] ++ data)) },
      true)
  | some n =>
    ({ fs with
        files := Function.update fs.files name (some ((fs.files name).getD [] ++ data.take n)) },
      false)

/-- The slice `base[:len(base)-len(ext)]` of `getUnusedPath` and of
`getFilePathWithIndex`, for `base := filepath.Base(originalPath)` and
`ext := filepath.Ext(base)`. The extension is an end piece of `base`, so that
the cut by bytes of the source is a cut by characters. -/
def baseWithoutExt (lib : PathLib) (originalPath : String) : String :=
  String.mk ((lib.Base originalPath).data.take
    ((lib.Base originalPath).data.length - (filepath.Ext lib (lib.Base originalPath)).data.length))

/-- The function `getFilePathWithIndex`. -/
def getFilePathWithIndex (lib : PathLib) (originalPath : String) (index : Int) : String :=
  let base := lib.Base originalPath
  let dir := lib.Dir originalPath
  let ext := filepath.Ext lib base
  lib.Join dir (baseWithoutExt lib originalPath ++ "-" ++ FormatInt index ++ ext)

/-- The path that the loop of `getUnusedPath` forms for the value `index`:
`newBase := fmt.Sprintf("%s(%d)%s", baseWithoutExt, index, ext)` joined to the
directory. -/
def getUnusedPath.newPath (lib : PathLib) (originalPath : String) (index : Int) : String :=
  let base := lib.Base originalPath
  let dir := lib.Dir originalPath
  let ext := filepath.Ext lib base
  let newBase := baseWithoutExt lib originalPath ++ "(" ++ FormatInt index ++ ")" ++ ext
  lib.Join dir newBase

/-- The loop `for { ... index++ }` of `getUnusedPath`, started at the value
`index`; `fuel` bounds the number of rounds, and `none` says that the loop has
not returned within them. -/
def getUnusedPath.loop (lib : PathLib) (intSize : Nat) (fs : FileSystem) (originalPath : String) :
    Nat → Int → Option String
  | 0, _ => none
  | fuel + 1, index =>
    let newPath := getUnusedPath.newPath lib originalPath index
    if fs.IsNotExist newPath then some newPath
    else getUnusedPath.loop lib intSize fs originalPath fuel (intIncr intSize index)

/-- The function `getUnusedPath`. -/
def getUnusedPath (lib : PathLib) (intSize : Nat) (fs : FileSystem) (fuel : Nat)
    (originalPath : String) : Option String :=
  if fs.IsNotExist originalPath then some originalPath
  else getUnusedPath.loop lib intSize fs originalPath fuel 1

/-- The function `writeFile`: the file system it leaves and whether its
result is `nil`; `none` says that `getUnusedPath` has not returned. An error
of `os.Create` is returned with nothing written, and the result is otherwise
the error of `Write`. -/
def writeFile (lib : PathLib) (intSize : Nat) (fuel : Nat) (path : String) (data : List Nat)
    (fs : FileSystem) : Option (FileSystem × Bool) :=
  match getUnusedPath lib intSize fs fuel path with
  | none => none
  | some unused =>
    match os.Create fs unused with
    | none => some (fs, false)
    | some fs => some (fs.Write unused data)

/-- The loop `for i := 0; i < pd.count; i++` of `SaveWebFrameToPDF` over the
chunks from the one of index `i` on: the first `writeFile` that fails ends it. -/
def View.SaveWebFrameToPDF.loop (lib : PathLib) (intSize : Nat) (fuel : Nat) (path : String) :
    List (List Nat) → Nat → FileSystem → Option (FileSystem × Bool)
  | [], _, fs => some (fs, true)
  | chunk :: rest, i, fs =>
    match writeFile lib intSize fuel (getFilePathWithIndex lib path ((i : Int) + 1)) chunk fs with
    | none => none
    | some (fs, false) => some (fs, false)
    | some (fs, true) => View.SaveWebFrameToPDF.loop lib intSize fuel path rest (i + 1) fs

/-- The method `SaveWebFrameToPDF` from the result of `wkeUtilPrintToPdf` on:
`datas` is `none` when that call fails and otherwise holds the `pd.count`
chunks of the document. -/
def View.SaveWebFrameToPDF (lib : PathLib) (intSize : Nat) (fuel : Nat) (path : String)
    (datas : Option (List (List Nat))) (fs : FileSystem) : Option (FileSystem × Bool) :=
  match datas with
  | none => some (fs, false)
  | some [] => some (fs, false)
  | some [chunk] => writeFile lib intSize fuel path chunk fs
  | some chunks => View.SaveWebFrameToPDF.loop lib intSize fuel path chunks 0 fs

/-! ## States, sequences of steps and predicates used in the statements -/

/-- The struct literal of `NewView` (lines 56-72): every map is made empty. -/
def View.new (hwnd : Nat) (window : MiniBlink.Window) (parent : Option Nat) : View :=
  { Hwnd := hwnd, Window := window, parent := parent,
    eventCallbacks := GoMap.empty, onClosingCallbacks := GoMap.empty,
    onDestroyCallbacks := GoMap.empty, onLoadUrlEndCallbacks := GoMap.empty,
    onDocumentReadyCallbacks := GoMap.empty, onTitleChangedCallbacks := GoMap.empty,
    onDownloadCallbacks := GoMap.empty, onDidCreateScriptContextCallbacks := GoMap.empty }

/-- A state with empty pools in which every address holds a fresh view, the
one at address `a` with view handle `100 + a` and window handle `200 + a`. -/
def Blink.fresh : Blink :=
  { views := GoMap.empty, windows := GoMap.empty, bootScripts := [], channels := [],
    engine := ⟨fun _ => false, fun _ _ => false, fun _ => "", fun _ _ => []⟩,
    mem := fun a => View.new (100 + a) ⟨200 + a⟩ none, log := [] }

/-- One step of an application on the destroy registry of a view: a call of
`OnDestroy` together with the token it draws, or a call of the `stop` function
that an earlier `OnDestroy` returned, which deletes the token it captured. -/
inductive DestroyOp where
  | add (key : String) (callback : OnDestroyCallback)
  | stop (key : String)

/-- The effect of one step on the view at address `v`. -/
def DestroyOp.run (v : Nat) : DestroyOp → Blink → Blink
  | .add key callback, mb => View.OnDestroy v key callback mb
  | .stop key, mb => View.OnDestroy.stop v key mb

/-- The effect of a sequence of steps, first to last. -/
def DestroyOp.runAll (v : Nat) (ops : List DestroyOp) (mb : Blink) : Blink :=
  ops.foldl (fun mb op => op.run v mb) mb

/-- The callbacks that the `OnDestroy` calls of a sequence register. -/
def DestroyOp.added : List DestroyOp → List OnDestroyCallback
  | [] => []
  | .add _ callback :: ops => callback :: DestroyOp.added ops
  | .stop _ :: ops => DestroyOp.added ops

/-- The pool used to try the cascade: the views at the addresses 0 to 3 are
added to the pool; 1 and 2 have the view at address 0 as parent, 3 has none. -/
def Blink.family : Blink :=
  View.addToPool 3 "k3" (View.addToPool 2 "k2" (View.addToPool 1 "k1" (View.addToPool 0 "k0"
    { Blink.fresh with
      mem := fun a => View.new (100 + a) ⟨200 + a⟩ (if a = 1 ∨ a = 2 then some 0 else none) })))

/-- The callback stored under `key` in the document-ready registry of the
view `v` was put there by `RunJS` or `RunJsByFrame` on `v`, so that the token
its `stop` deletes is the one it is stored under, or it is a callback of the
application. -/
def OnDocumentReadyCallback.registeredBy (v : Nat) (key : String) :
    OnDocumentReadyCallback → Prop
  | .runJS v' _ stop => v' = v ∧ stop = key
  | .runJsByFrame v' _ _ _ stop => v' = v ∧ stop = key
  | .app _ => True

/-- Every entry of the document-ready registry of `v` is as the methods of
`view.go` leave it. -/
def View.documentReadyWellFormed (v : Nat) (mb : Blink) : Prop :=
  ∀ e ∈ (mb.mem v).onDocumentReadyCallbacks.entries, e.2.registeredBy v e.1

instance (v : Nat) (key : String) (cb : OnDocumentReadyCallback) :
    Decidable (cb.registeredBy v key) := by
  cases cb <;> simp only [OnDocumentReadyCallback.registeredBy] <;> infer_instance

instance (v : Nat) (mb : Blink) : Decidable (View.documentReadyWellFormed v mb) := by
  unfold View.documentReadyWellFormed
  infer_instance

/-- The outcome `r` of one fan-out over `registry`, started in the state `mb`:
the entries whose callback was called are the entries of the registry in some
order, each of them once, and the state reached is that of the calls
`call callback`, one after the other in that order. -/
def CalledEachOnce {V : Type} (registry : GoMap String V) (call : V → Blink → Blink)
    (mb : Blink) (r : Blink × List (String × V)) : Prop :=
  r.2.Perm registry.entries ∧ r.1 = r.2.foldl (fun s e => call e.2 s) mb

/-- A state to try the fan-outs on: the view at address 0 is in the pool, has
the boot scripts injected, waits with a deferred script for its document and
has callbacks of the application in several registries. -/
def Blink.sample : Blink :=
  View.OnTitleChanged 0 "t2" ⟨8⟩ (View.OnTitleChanged 0 "t1" ⟨7⟩
    (View.RunJS 0 "init()" "r1" (View.OnDocumentReady 0 "d1" (.app 5)
      (View.injectBootScripts 0 "b1" (View.addToPool 0 "k0"
        { Blink.fresh with
          bootScripts := ["a", "b"]
          engine := ⟨fun _ => false, fun _ frame => decide (frame = 1), fun _ => "", fun _ _ => []⟩
        })))))

/-- Whether a call of the callback on `readyFrame` runs its script and
removes the registration; `main` is the answer of `IsMainFrame` for that frame. -/
def OnDocumentReadyCallback.fires (main : Bool) (readyFrame : Nat) :
    OnDocumentReadyCallback → Bool
  | .runJS _ _ _ => main
  | .runJsByFrame _ frame _ _ _ => decide (readyFrame = frame)
  | .app _ => false

/-- What a call of the callback on `readyFrame` appends to the log, for a view
with handle `hwnd`. -/
def OnDocumentReadyCallback.effects (hwnd : Nat) (main : Bool) (readyFrame : Nat) :
    OnDocumentReadyCallback → List Effect
  | .runJS _ script _ => if main then [.call "wkeRunJS" [.num hwnd, .str script]] else []
  | .runJsByFrame _ frame script isInClosure _ =>
    if readyFrame = frame then
      [.call "wkeRunJsByFrame" [.num frame, .str script, .flag isInClosure]]
    else []
  | .app id => [.callback id [.num readyFrame]]

/-- A sequence of document-ready events of the view `v`, each with the frame
it reports and the order in which its fan-out visits the registry. -/
def View.documentReadyEvents (v : Nat) : List (RangeOrder × Nat) → Blink → Blink
  | [], mb => mb
  | (ρ, frame) :: es, mb =>
    View.documentReadyEvents v es (View.registerOnDocumentReady.handler ρ v frame mb).1

/-- Three document-ready events to try the deferred scripts on: frame 2, then
frame 1 twice, with different visiting orders. -/
def Blink.sampleEvents : List (RangeOrder × Nat) :=
  [(RangeOrder.reversed, 2), (RangeOrder.stored, 1), (RangeOrder.reversed, 1)]

/-- Whether an effect is a call into the engine. -/
def Effect.isCall : Effect → Bool
  | .call _ _ => true
  | _ => false

/-- What a call `callback(frame, context, exGroup, worldId)` appends to the
log, given the objects behind the addresses. -/
def OnDidCreateScriptContextCallback.effect (mem : Nat → View) (frame context : Nat)
    (exGroup worldId : Int) : OnDidCreateScriptContextCallback → Effect
  | .bootScripts v script => .call "wkeRunJS" [.num (mem v).Hwnd, .str script]
  | .app id => .callback id [.num frame, .num context, .int exGroup, .int worldId]

/-- One script-context-created event of a view: the order in which its fan-out
visits the registry, the arguments the engine passes, and what `mb.bootScripts`
holds when the event arrives. -/
structure ScriptContextEvent where
  order : RangeOrder
  bootScripts : List String
  frame : Nat
  context : Nat
  exGroup : Int
  worldId : Int

/-- A sequence of script-context-created events of the view `v`. -/
def View.scriptContextEvents (v : Nat) : List ScriptContextEvent → Blink → Blink
  | [], mb => mb
  | e :: es, mb =>
    View.scriptContextEvents v es
      (View.registerOnDidCreateScriptContext.handler e.order v e.frame e.context e.exGroup
        e.worldId { mb with bootScripts := e.bootScripts }).1

/-- The text `s1 + ";\n" + ... + sn + ";\n"` of the specification, empty for
no boot script. -/
def bootScriptText : List String → String
  | [] => ""
  | s :: rest => s ++ ";\n" ++ bootScriptText rest

/-- Whether the callback is one of the application. -/
def OnDidCreateScriptContextCallback.isApp : OnDidCreateScriptContextCallback → Bool
  | .app _ => true
  | .bootScripts _ _ => false

/-- A state to try the boot scripts on: two boot scripts, and a callback of
the application in the script-context registry of the view at address 0. -/
def Blink.booting : Blink :=
  View.OnDidCreateScriptContext 0 "u1" (.app 4) { Blink.fresh with bootScripts := ["a", "b"] }

/-- Two script-context-created events; by the second the application has
changed the boot scripts. -/
def Blink.bootingEvents : List ScriptContextEvent :=
  [⟨RangeOrder.reversed, ["a", "b"], 1, 7, 0, 0⟩, ⟨RangeOrder.stored, ["c"], 2, 8, 0, 1⟩]

/-- A state in which the view at address 0 has the handle 2^63. -/
def Blink.highHandle : Blink :=
  { Blink.fresh with mem := fun a => View.new (2 ^ 63 + a) ⟨200 + a⟩ none }

/-- Calls of the application on the delegated events of a view, to try the
routing on. -/
def Blink.sampleEventOps : List EventOp :=
  [.add ".mb-btn-min" "click" ⟨1⟩ [] "r1",
    .add ".mb-caption-drag" "mousedown" ⟨2⟩ ["if(e.target.closest('.mb-caption-nodrag')) return;"]
      "r2",
    .add ".mb-btn-min" "click" ⟨3⟩ [] "r3",
    .remove ".mb-caption-drag" "mousedown"]

/-- A path library for names without a directory part, on which it agrees
with `path/filepath`: the name is its own base, the directory is "." and
joining a name to "." gives the name. -/
def PathLib.flat : PathLib :=
  { IsPathSeparator := fun c => decide (c = '/'), Base := fun p => p, Dir := fun _ => ".",
    Join := fun _ name => name }

/-- The functions of `path/filepath` where the separator is the slash, as
they are on relative paths without ".", ".." or a doubled or final slash, such
as "f/x.pdf": the base is what follows the last slash, the directory what
precedes it, or "." without one, and joining puts a slash between the two
unless the directory is ".". -/
def PathLib.slash : PathLib :=
  { IsPathSeparator := fun c => decide (c = '/'),
    Base := fun p => String.mk (p.data.reverse.takeWhile fun c => c != '/').reverse,
    Dir := fun p =>
      if '/' ∈ p.data then String.mk ((p.data.reverse.dropWhile fun c => c != '/').drop 1).reverse
      else ".",
    Join := fun dir name => if dir = "." then name else dir ++ "/" ++ name }

/-- A file system in which "out.pdf" and "out(1).pdf" are there and nothing
else is. -/
def FileSystem.sample : FileSystem :=
  { files := fun p => if p = "out.pdf" then some [1, 2] else if p = "out(1).pdf" then some [3]
      else none,
    statError := fun _ => false, createError := fun _ => false, writeError := fun _ => none }

/-- A file system whose only file is the regular file "f", as Linux presents
it: `os.Stat` and `os.Create` fail on every path that goes through "f" as if
it were a directory, with the error ENOTDIR, which is not a not-exist error. -/
def FileSystem.underFile : FileSystem :=
  { files := fun p => if p = "f" then some [7] else none,
    statError := fun p => decide (p.data.take 2 = ['f', '/']),
    createError := fun p => decide (p.data.take 2 = ['f', '/']),
    writeError := fun _ => none }

/-! # Theorems -/

/-! ## Go maps -/

namespace GoMap

variable {K V : Type} [DecidableEq K]

omit [DecidableEq K] in
theorem ext_entries {m₁ m₂ : GoMap K V} (h : m₁.entries = m₂.entries) : m₁ = m₂ := by
  cases m₁; cases m₂; simp_all

theorem find_eq_none_of_not_mem (l : List (K × V)) (k : K) (h : k ∉ l.map Prod.fst) :
    l.find? (fun e => decide (e.1 = k)) = none := by
  rw [List.find?_eq_none]
  intro e he
  simp only [decide_eq_true_eq]
  intro hk
  exact h (List.mem_map.mpr ⟨e, he, hk⟩)

theorem get_eq_some_iff (m : GoMap K V) (k : K) (x : V) :
    m.get k = some x ↔ (k, x) ∈ m.entries := by
  obtain ⟨l, hl⟩ := m
  simp only [get]
  induction l with
  | nil => simp
  | cons e rest ih =>
    obtain ⟨k', x'⟩ := e
    simp only [List.map_cons, List.nodup_cons] at hl
    by_cases hk : k' = k
    · subst hk
      simp only [List.find?_cons, decide_True, Option.map_some', Option.some.injEq,
        List.mem_cons, Prod.mk.injEq, true_and]
      constructor
      · intro h; exact Or.inl h.symm
      · rintro (h | h)
        · exact h.symm
        · exact absurd (List.mem_map.mpr ⟨(k', x), h, rfl⟩) hl.1
    · have hk' : ¬ (k = k') := fun h => hk h.symm
      simp only [List.find?_cons, hk, decide_False, List.mem_cons, Prod.mk.injEq, hk',
        false_and, false_or]
      exact ih hl.2

theorem get_eq_none_iff (m : GoMap K V) (k : K) : m.get k = none ↔ k ∉ m.keys := by
  constructor
  · intro h hk
    obtain ⟨e, he, rfl⟩ := List.mem_map.mp hk
    have := (get_eq_some_iff m e.1 e.2).mpr he
    rw [h] at this
    cases this
  · intro h
    simp only [get, find_eq_none_of_not_mem m.entries k h, Option.map_none']

theorem get_isSome_iff (m : GoMap K V) (k : K) : (m.get k).isSome ↔ k ∈ m.keys := by
  rw [← not_iff_not, ← get_eq_none_iff]
  cases m.get k <;> simp

theorem mem_entries_delete (m : GoMap K V) (k : K) (e : K × V) :
    e ∈ (m.delete k).entries ↔ e ∈ m.entries ∧ e.1 ≠ k := by
  simp [delete, List.mem_filter]

theorem mem_entries_set (m : GoMap K V) (k : K) (x : V) (e : K × V) :
    e ∈ (m.set k x).entries ↔ (e ∈ m.entries ∧ e.1 ≠ k) ∨ e = (k, x) := by
  simp [set, List.mem_filter]

theorem get_delete_same (m : GoMap K V) (k : K) : (m.delete k).get k = none := by
  rw [get_eq_none_iff]
  intro hk
  obtain ⟨e, he, hek⟩ := List.mem_map.mp hk
  exact ((mem_entries_delete m k e).mp he).2 hek

theorem get_delete_ne (m : GoMap K V) {k k' : K} (h : k' ≠ k) :
    (m.delete k).get k' = m.get k' := by
  cases hg : m.get k' with
  | none =>
    rw [get_eq_none_iff] at hg ⊢
    intro hk
    obtain ⟨e, he, hek⟩ := List.mem_map.mp hk
    exact hg (List.mem_map.mpr ⟨e, ((mem_entries_delete m k e).mp he).1, hek⟩)
  | some x =>
    rw [get_eq_some_iff] at hg ⊢
    exact (mem_entries_delete m k _).mpr ⟨hg, h⟩

theorem get_set_same (m : GoMap K V) (k : K) (x : V) : (m.set k x).get k = some x := by
  rw [get_eq_some_iff]
  exact (mem_entries_set m k x _).mpr (Or.inr rfl)

theorem get_set_ne (m : GoMap K V) {k k' : K} (x : V) (h : k' ≠ k) :
    (m.set k x).get k' = m.get k' := by
  cases hg : m.get k' with
  | none =>
    rw [get_eq_none_iff] at hg ⊢
    intro hk
    obtain ⟨e, he, hek⟩ := List.mem_map.mp hk
    rcases (mem_entries_set m k x e).mp he with ⟨he', _⟩ | rfl
    · exact hg (List.mem_map.mpr ⟨e, he', hek⟩)
    · exact h hek.symm
  | some y =>
    rw [get_eq_some_iff] at hg ⊢
    exact (mem_entries_set m k x _).mpr (Or.inl ⟨hg, h⟩)

theorem filter_ne_of_not_mem (l : List (K × V)) (k : K) (h : k ∉ l.map Prod.fst) :
    l.filter (fun e => decide (e.1 ≠ k)) = l := by
  rw [List.filter_eq_self]
  intro e he
  simp only [ne_eq, decide_not, Bool.not_eq_true', decide_eq_false_iff_not]
  intro hk
  exact h (List.mem_map.mpr ⟨e, he, hk⟩)

theorem delete_of_get_none (m : GoMap K V) (k : K) (h : m.get k = none) : m.delete k = m := by
  apply ext_entries
  exact filter_ne_of_not_mem m.entries k ((get_eq_none_iff m k).mp h)

theorem delete_delete (m : GoMap K V) (k : K) : (m.delete k).delete k = m.delete k :=
  delete_of_get_none _ _ (get_delete_same m k)

theorem entries_set_of_get_none (m : GoMap K V) (k : K) (x : V) (h : m.get k = none) :
    (m.set k x).entries = m.entries ++ [(k, x)] := by
  simp only [set]
  rw [filter_ne_of_not_mem m.entries k ((get_eq_none_iff m k).mp h)]

theorem delete_set_of_get_none (m : GoMap K V) (k : K) (x : V) (h : m.get k = none) :
    (m.set k x).delete k = m := by
  apply ext_entries
  simp only [delete, entries_set_of_get_none m k x h, List.filter_append]
  rw [filter_ne_of_not_mem m.entries k ((get_eq_none_iff m k).mp h)]
  simp

theorem len_set_of_get_none (m : GoMap K V) (k : K) (x : V) (h : m.get k = none) :
    (m.set k x).len = m.len + 1 := by
  simp [len, entries_set_of_get_none m k x h]

theorem len_delete_of_get_some (m : GoMap K V) (k : K) (y : V) (h : m.get k = some y) :
    (m.delete k).len + 1 = m.len := by
  obtain ⟨l, hl⟩ := m
  simp only [get] at h
  simp only [len, delete]
  induction l with
  | nil => simp at h
  | cons e rest ih =>
    simp only [List.map_cons, List.nodup_cons] at hl
    by_cases hk : e.1 = k
    · have hnot : k ∉ rest.map Prod.fst := hk ▸ hl.1
      have hf := filter_ne_of_not_mem rest k hnot
      simp only [List.filter_cons, ne_eq, hk, not_true_eq_false, decide_False,
        Bool.false_eq_true, ↓reduceIte, List.length_cons]
      simp only [ne_eq] at hf
      rw [hf]
    · simp only [List.find?_cons, hk, decide_False] at h
      simp only [List.filter_cons, ne_eq, hk, not_false_eq_true, decide_True, ↓reduceIte,
        List.length_cons]
      have := ih hl.2 h
      simp only [ne_eq, decide_not] at this ⊢
      omega

theorem len_set_of_get_some (m : GoMap K V) (k : K) (x y : V) (h : m.get k = some y) :
    (m.set k x).len = m.len := by
  have h1 := len_delete_of_get_some m k y h
  simp only [len, set, delete, List.length_append, List.length_singleton] at h1 ⊢
  exact h1

end GoMap

/-! ## Closing veto -/

theorem closing_loop_result (l : List (String × OnClosingCallback)) (mb : Blink) :
    (View.registerOnClosing.loop l mb).2 = l.all (fun e => e.2.run ()) := by
  induction l generalizing mb with
  | nil => rfl
  | cons e rest ih =>
    obtain ⟨k, cb⟩ := e
    simp only [View.registerOnClosing.loop, List.all_cons]
    by_cases h : cb.run () = true
    · simp [h, ih]
    · simp [h]

/-- C1: the closing handler approves exactly when every callback in the
closing registry returns true, whatever the visiting order: it approves an
empty registry and refuses as soon as one registered callback refuses. -/
theorem closing_approves_iff_all_approve (ρ : RangeOrder) (v : Nat) (mb : Blink) :
    ((View.registerOnClosing.handler ρ v mb).2 = true ↔
        ∀ e ∈ (mb.mem v).onClosingCallbacks.entries, e.2.run () = true) ∧
      ((mb.mem v).onClosingCallbacks.entries = [] →
        (View.registerOnClosing.handler ρ v mb).2 = true) ∧
      ((∃ e ∈ (mb.mem v).onClosingCallbacks.entries, e.2.run () = false) →
        (View.registerOnClosing.handler ρ v mb).2 = false) := by
  have key : (View.registerOnClosing.handler ρ v mb).2 = true ↔
      ∀ e ∈ (mb.mem v).onClosingCallbacks.entries, e.2.run () = true := by
    unfold View.registerOnClosing.handler
    rw [closing_loop_result, List.all_eq_true]
    constructor
    · intro h e he
      exact h e ((ρ.perm _).mem_iff.mpr he)
    · intro h e he
      exact h e ((ρ.perm _).mem_iff.mp he)
  refine ⟨key, ?_, ?_⟩
  · intro h
    rw [key, h]
    intro e he
    cases he
  · rintro ⟨e, he, hfalse⟩
    cases hres : (View.registerOnClosing.handler ρ v mb).2 with
    | false => rfl
    | true =>
      have := key.mp hres e he
      rw [hfalse] at this
      cases this

/-- C2 (the code at the failing input): three closing callbacks are added in
the order allow, deny, allow under the tokens "a", "b", "c"; a range over the
map that starts at the third entry and wraps round runs the third callback
first, then the first, then the second, and refuses. -/
theorem closing_third_handler_invoked_first :
    (View.registerOnClosing.handler (RangeOrder.rotated 2) 0
        (View.OnClosing 0 "c" ⟨3, fun _ => true⟩
          (View.OnClosing 0 "b" ⟨2, fun _ => false⟩
            (View.OnClosing 0 "a" ⟨1, fun _ => true⟩ Blink.fresh)))).1.log
        = [Effect.callback 3 [], Effect.callback 1 [], Effect.callback 2 []] ∧
      (View.registerOnClosing.handler (RangeOrder.rotated 2) 0
        (View.OnClosing 0 "c" ⟨3, fun _ => true⟩
          (View.OnClosing 0 "b" ⟨2, fun _ => false⟩
            (View.OnClosing 0 "a" ⟨1, fun _ => true⟩ Blink.fresh)))).2 = false := by
  decide

/-! ## Ranges over maps -/

section Range

variable {S K V : Type} [DecidableEq K]

theorem goRangeLoop_preserves {α : Type} (sel : S → GoMap K V) (body : K → V → S → S)
    (f : S → α) (hbody : ∀ k x s, f (body k x s) = f s) (l : List (K × V)) (s : S) :
    f (goRangeLoop sel body l s).1 = f s := by
  induction l generalizing s with
  | nil => rfl
  | cons e rest ih =>
    obtain ⟨k, x⟩ := e
    simp only [goRangeLoop]
    cases (sel s).get k with
    | none => exact ih s
    | some y => simp only [ih, hbody]

theorem goRangeLoop_of_stable (sel : S → GoMap K V) (body : K → V → S → S)
    (hsel : ∀ k x s, sel (body k x s) = sel s) (l : List (K × V)) (s : S)
    (hl : ∀ e ∈ l, e ∈ (sel s).entries) :
    goRangeLoop sel body l s = (l.foldl (fun s e => body e.1 e.2 s) s, l) := by
  induction l generalizing s with
  | nil => rfl
  | cons e rest ih =>
    obtain ⟨k, x⟩ := e
    have hk : (sel s).get k = some x :=
      (GoMap.get_eq_some_iff _ _ _).mpr (hl (k, x) (List.mem_cons_self _ _))
    have hrest : ∀ e ∈ rest, e ∈ (sel (body k x s)).entries := by
      intro e he
      rw [hsel]
      exact hl e (List.mem_cons_of_mem _ he)
    simp only [goRangeLoop, hk, List.foldl_cons, ih (body k x s) hrest]

theorem goRange_of_stable (ρ : RangeOrder) (sel : S → GoMap K V) (body : K → V → S → S)
    (hsel : ∀ k x s, sel (body k x s) = sel s) (s : S) :
    goRange ρ sel body s =
      ((ρ.pick (sel s).entries).foldl (fun s e => body e.1 e.2 s) s, ρ.pick (sel s).entries) :=
  goRangeLoop_of_stable sel body hsel _ s (fun _ he => (ρ.perm _).mem_iff.mp he)

theorem goRangeLoop_of_own_delete (sel : S → GoMap K V) (body : K → V → S → S)
    (l : List (K × V)) (s : S) (hnd : (l.map Prod.fst).Nodup)
    (hl : ∀ e ∈ l, e ∈ (sel s).entries)
    (hbody : ∀ e ∈ l, ∀ s, sel (body e.1 e.2 s) = sel s ∨
      sel (body e.1 e.2 s) = (sel s).delete e.1) :
    goRangeLoop sel body l s = (l.foldl (fun s e => body e.1 e.2 s) s, l) := by
  induction l generalizing s with
  | nil => rfl
  | cons e rest ih =>
    obtain ⟨k, x⟩ := e
    simp only [List.map_cons, List.nodup_cons] at hnd
    have hk : (sel s).get k = some x :=
      (GoMap.get_eq_some_iff _ _ _).mpr (hl (k, x) (List.mem_cons_self _ _))
    have hrest : ∀ e ∈ rest, e ∈ (sel (body k x s)).entries := by
      intro e he
      have hes := hl e (List.mem_cons_of_mem _ he)
      rcases hbody (k, x) (List.mem_cons_self _ _) s with h | h
      · rw [h]; exact hes
      · rw [h, GoMap.mem_entries_delete]
        refine ⟨hes, fun hek => hnd.1 ?_⟩
        exact List.mem_map.mpr ⟨e, he, hek⟩
    simp only [goRangeLoop, hk, List.foldl_cons,
      ih (body k x s) hnd.2 hrest (fun e he => hbody e (List.mem_cons_of_mem _ he))]

end Range

/-! ## State updates -/

@[simp] theorem Blink.modify_mem_same (mb : Blink) (v : Nat) (f : View → View) :
    (mb.modify v f).mem v = f (mb.mem v) := by
  simp [Blink.modify]

theorem Blink.modify_mem_ne (mb : Blink) {v w : Nat} (f : View → View) (h : w ≠ v) :
    (mb.modify v f).mem w = mb.mem w := by
  simp [Blink.modify, Function.update_noteq h]

@[simp] theorem Blink.emit_mem (mb : Blink) (e : Effect) : (mb.emit e).mem = mb.mem := rfl

@[simp] theorem Blink.emit_views (mb : Blink) (e : Effect) : (mb.emit e).views = mb.views := rfl

@[simp] theorem Blink.emit_windows (mb : Blink) (e : Effect) :
    (mb.emit e).windows = mb.windows := rfl

@[simp] theorem Blink.emit_log (mb : Blink) (e : Effect) : (mb.emit e).log = mb.log ++ [e] := rfl

theorem Blink.modify_id (mb : Blink) (v : Nat) (f : View → View) (h : f (mb.mem v) = mb.mem v) :
    mb.modify v f = mb := by
  simp [Blink.modify, h]

/-! ## The destroy registry -/

theorem addToPool_onDestroy_mem (ρ : RangeOrder) (v : Nat) (mb : Blink) :
    (View.addToPool.onDestroy ρ v mb).mem = mb.mem := by
  unfold View.addToPool.onDestroy goRange
  simp only []
  rw [goRangeLoop_preserves _ _ (fun mb : Blink => mb.mem)]
  · rfl
  · intro k x s
    by_cases h : (s.mem x).parent = some v <;> simp [h, View.DestroyWindow]

theorem OnDestroyCallback.invoke_mem (ρ : RangeOrder) (cb : OnDestroyCallback) (mb : Blink) :
    (cb.invoke ρ mb).mem = mb.mem := by
  cases cb with
  | poolCleanup v => exact addToPool_onDestroy_mem ρ v mb
  | app id => rfl

theorem registerOnDestroy_range_visited (ρ ρ' : RangeOrder) (v : Nat) (mb : Blink) :
    (View.registerOnDestroy.range ρ ρ' v mb).2 = ρ.pick (mb.mem v).onDestroyCallbacks.entries := by
  unfold View.registerOnDestroy.range
  rw [goRange_of_stable]
  intro k x s
  simp only [OnDestroyCallback.invoke_mem]

theorem DestroyOp.runAll_append (v : Nat) (ops₁ ops₂ : List DestroyOp) (mb : Blink) :
    DestroyOp.runAll v (ops₁ ++ ops₂) mb = DestroyOp.runAll v ops₂ (DestroyOp.runAll v ops₁ mb) := by
  simp [DestroyOp.runAll, List.foldl_append]

theorem DestroyOp.runAll_entries (v : Nat) (h : OnDestroyCallback)
    (Q : String × OnDestroyCallback → Prop) (hQ : ∀ k x, x ≠ h → Q (k, x))
    (ops : List DestroyOp) (mb : Blink) (hops : h ∉ DestroyOp.added ops)
    (hmb : ∀ e ∈ (mb.mem v).onDestroyCallbacks.entries, Q e) :
    ∀ e ∈ ((DestroyOp.runAll v ops mb).mem v).onDestroyCallbacks.entries, Q e := by
  induction ops generalizing mb with
  | nil => exact hmb
  | cons op rest ih =>
    simp only [DestroyOp.runAll, List.foldl_cons]
    cases op with
    | add key callback =>
      simp only [DestroyOp.added, List.mem_cons, not_or] at hops
      apply ih _ hops.2
      intro e he
      simp only [DestroyOp.run, View.OnDestroy, Blink.modify_mem_same] at he
      rcases (GoMap.mem_entries_set _ _ _ _).mp he with ⟨he', _⟩ | rfl
      · exact hmb e he'
      · exact hQ _ _ (fun hc => hops.1 hc.symm)
    | stop key =>
      simp only [DestroyOp.added] at hops
      apply ih _ hops
      intro e he
      simp only [DestroyOp.run, View.OnDestroy.stop, Blink.modify_mem_same] at he
      exact hmb e ((GoMap.mem_entries_delete _ _ _).mp he).1

/-- C3: in every sequence of `OnDestroy` calls and `stop` calls on a view, a
callback `h` that is registered by one `OnDestroy` call only is not called by
any fan-out of the destroy registry that takes place after the `stop` function
of that call has been called; and a `stop` whose token is not in the registry
leaves the state as it is, so that calling `stop` twice is calling it once. -/
theorem destroy_stop_removes_handler (ρ ρ' : RangeOrder) (v : Nat) (mb : Blink)
    (pre mid post : List DestroyOp) (key : String) (h : OnDestroyCallback)
    (h0 : ∀ e ∈ (mb.mem v).onDestroyCallbacks.entries, e.2 ≠ h)
    (hpre : h ∉ DestroyOp.added pre) (hmid : h ∉ DestroyOp.added mid)
    (hpost : h ∉ DestroyOp.added post) :
    (∀ e ∈ (View.registerOnDestroy.range ρ ρ' v
        (DestroyOp.runAll v (pre ++ [.add key h] ++ mid ++ [.stop key] ++ post) mb)).2,
        e.2 ≠ h) ∧
      (∀ (mb' : Blink) (k : String), (mb'.mem v).onDestroyCallbacks.get k = none →
        View.OnDestroy.stop v k mb' = mb') ∧
      (∀ (mb' : Blink) (k : String),
        View.OnDestroy.stop v k (View.OnDestroy.stop v k mb') = View.OnDestroy.stop v k mb') := by
  have hstop : ∀ (mb' : Blink) (k : String), (mb'.mem v).onDestroyCallbacks.get k = none →
      View.OnDestroy.stop v k mb' = mb' := by
    intro mb' k hk
    apply Blink.modify_id
    rw [GoMap.delete_of_get_none _ _ hk]
  refine ⟨?_, hstop, ?_⟩
  · intro e he
    rw [registerOnDestroy_range_visited] at he
    have he' := (ρ.perm _).mem_iff.mp he
    revert e
    simp only [DestroyOp.runAll_append]
    -- after `pre`: no entry holds `h`
    have h1 := DestroyOp.runAll_entries v h (fun e => e.2 ≠ h) (fun _ _ hx => hx) pre mb hpre h0
    -- after the registration: `h` is held under `key` only
    have h2 : ∀ e ∈ ((DestroyOp.runAll v [.add key h] (DestroyOp.runAll v pre mb)).mem
        v).onDestroyCallbacks.entries, e.2 = h → e.1 = key := by
      intro e he hh
      simp only [DestroyOp.runAll, List.foldl_cons, List.foldl_nil, DestroyOp.run,
        View.OnDestroy, Blink.modify_mem_same] at he
      rcases (GoMap.mem_entries_set _ _ _ _).mp he with ⟨he', _⟩ | rfl
      · exact absurd hh (h1 e he')
      · rfl
    have h3 := DestroyOp.runAll_entries v h (fun e => e.2 = h → e.1 = key)
      (fun _ _ hx hh => absurd hh hx) mid _ hmid h2
    -- after the `stop`: no entry holds `h`
    have h4 : ∀ e ∈ ((DestroyOp.runAll v [.stop key] (DestroyOp.runAll v mid
        (DestroyOp.runAll v [.add key h] (DestroyOp.runAll v pre mb)))).mem
        v).onDestroyCallbacks.entries, e.2 ≠ h := by
      intro e he hh
      simp only [DestroyOp.runAll, List.foldl_cons, List.foldl_nil, DestroyOp.run,
        View.OnDestroy.stop, Blink.modify_mem_same] at he
      have := (GoMap.mem_entries_delete _ _ _).mp he
      exact this.2 (h3 e this.1 hh)
    have h5 := DestroyOp.runAll_entries v h (fun e => e.2 ≠ h) (fun _ _ hx => hx) post _ hpost h4
    intro e _ he'
    exact h5 e he'
  · intro mb' k
    apply hstop
    simp only [View.OnDestroy.stop, Blink.modify_mem_same]
    exact GoMap.get_delete_same _ _

/-- C3, at a concrete sequence: two callbacks are added, the second is
stopped, a third is added. -/
theorem destroy_stop_removes_handler_witness :
    (∀ e ∈ (View.registerOnDestroy.range RangeOrder.stored RangeOrder.reversed 0
        (DestroyOp.runAll 0 ([.add "a" (.app 1)] ++ [.add "b" (.app 2)] ++ [] ++ [.stop "b"] ++
          [.add "c" (.app 3)]) Blink.fresh)).2, e.2 ≠ .app 2) ∧
      (∀ (mb' : Blink) (k : String), (mb'.mem 0).onDestroyCallbacks.get k = none →
        View.OnDestroy.stop 0 k mb' = mb') ∧
      (∀ (mb' : Blink) (k : String),
        View.OnDestroy.stop 0 k (View.OnDestroy.stop 0 k mb') = View.OnDestroy.stop 0 k mb') :=
  destroy_stop_removes_handler RangeOrder.stored RangeOrder.reversed 0 Blink.fresh
    [.add "a" (.app 1)] [] [.add "c" (.app 3)] "b" (.app 2) (by decide) (by decide) (by decide)
    (by decide)

/-! ## The object pools -/

theorem unregister_views (v : Nat) (mb : Blink) :
    (View.addToPool.onDestroy.unregister v mb).views = mb.views.delete (mb.mem v).Hwnd := rfl

theorem unregister_windows (v : Nat) (mb : Blink) :
    (View.addToPool.onDestroy.unregister v mb).windows =
      mb.windows.delete (mb.mem v).Window.Hwnd := rfl

theorem unregister_log (v : Nat) (mb : Blink) :
    (View.addToPool.onDestroy.unregister v mb).log = mb.log ++ [.lock, .unlock] := by
  simp [View.addToPool.onDestroy.unregister]

theorem unregister_mem (v : Nat) (mb : Blink) :
    (View.addToPool.onDestroy.unregister v mb).mem = mb.mem := rfl

theorem cascade_fold (v : Nat) (l : List (Nat × Nat)) (s : Blink) :
    let r := l.foldl (fun (s : Blink) (e : Nat × Nat) =>
      if (s.mem e.2).parent = some v then View.DestroyWindow e.2 s else s) s
    r.mem = s.mem ∧ r.views = s.views ∧ r.windows = s.windows ∧
      r.log = s.log ++
        ((l.filter (fun e => decide ((s.mem e.2).parent = some v))).map
          (fun e => Effect.windowDestroy e.2)) := by
  induction l generalizing s with
  | nil => simp
  | cons e rest ih =>
    simp only [List.foldl_cons]
    by_cases h : (s.mem e.2).parent = some v
    · have := ih (View.DestroyWindow e.2 s)
      simp only [View.DestroyWindow, Blink.emit_mem, Blink.emit_views, Blink.emit_windows,
        Blink.emit_log] at this
      simp only [h, ↓reduceIte, View.DestroyWindow, List.filter_cons, decide_True, List.map_cons]
      refine ⟨this.1, this.2.1, this.2.2.1, ?_⟩
      rw [this.2.2.2]
      simp
    · simp only [h, ↓reduceIte, List.filter_cons, decide_False]
      exact ih s

theorem addToPool_onDestroy_eq (ρ : RangeOrder) (v : Nat) (mb : Blink) :
    View.addToPool.onDestroy ρ v mb =
      (ρ.pick (mb.views.delete (mb.mem v).Hwnd).entries).foldl
        (fun (s : Blink) (e : Nat × Nat) =>
          if (s.mem e.2).parent = some v then View.DestroyWindow e.2 s else s)
        (View.addToPool.onDestroy.unregister v mb) := by
  unfold View.addToPool.onDestroy
  simp only []
  rw [goRange_of_stable]
  · rfl
  · intro k x s
    by_cases h : (s.mem x).parent = some v <;> simp [h, View.DestroyWindow]

theorem OnDestroyCallback.invoke_pools (ρ : RangeOrder) (cb : OnDestroyCallback) (mb : Blink) :
    (∀ h, mb.views.get h = none → (cb.invoke ρ mb).views.get h = none) ∧
      (∀ h, mb.windows.get h = none → (cb.invoke ρ mb).windows.get h = none) := by
  cases cb with
  | app id => exact ⟨fun _ hh => hh, fun _ hh => hh⟩
  | poolCleanup w =>
    have hc := cascade_fold w (ρ.pick (mb.views.delete (mb.mem w).Hwnd).entries)
      (View.addToPool.onDestroy.unregister w mb)
    simp only [] at hc
    simp only [OnDestroyCallback.invoke, addToPool_onDestroy_eq, hc.2.1, hc.2.2.1,
      unregister_views, unregister_windows]
    constructor
    · intro h hh
      by_cases heq : h = (mb.mem w).Hwnd
      · rw [heq]; exact GoMap.get_delete_same _ _
      · rw [GoMap.get_delete_ne _ heq]; exact hh
    · intro h hh
      by_cases heq : h = (mb.mem w).Window.Hwnd
      · rw [heq]; exact GoMap.get_delete_same _ _
      · rw [GoMap.get_delete_ne _ heq]; exact hh

theorem destroy_fold_unregisters (ρ : RangeOrder) (v : Nat)
    (l : List (String × OnDestroyCallback)) (s : Blink) (hv hw : Nat)
    (hs : (s.mem v).Hwnd = hv ∧ (s.mem v).Window.Hwnd = hw)
    (hl : (∃ e ∈ l, e.2 = .poolCleanup v) ∨ (s.views.get hv = none ∧ s.windows.get hw = none)) :
    (l.foldl (fun s e => e.2.invoke ρ s) s).views.get hv = none ∧
      (l.foldl (fun s e => e.2.invoke ρ s) s).windows.get hw = none := by
  induction l generalizing s with
  | nil =>
    rcases hl with ⟨e, he, _⟩ | h
    · cases he
    · exact h
  | cons e rest ih =>
    simp only [List.foldl_cons]
    apply ih
    · rw [OnDestroyCallback.invoke_mem]; exact hs
    · have hp := OnDestroyCallback.invoke_pools ρ e.2 s
      have hdone : e.2 = .poolCleanup v →
          (e.2.invoke ρ s).views.get hv = none ∧ (e.2.invoke ρ s).windows.get hw = none := by
        intro he
        have hc := cascade_fold v (ρ.pick (s.views.delete (s.mem v).Hwnd).entries)
          (View.addToPool.onDestroy.unregister v s)
        simp only [] at hc
        simp only [he, OnDestroyCallback.invoke, addToPool_onDestroy_eq, hc.2.1, hc.2.2.1,
          unregister_views, unregister_windows, ← hs.1, ← hs.2]
        exact ⟨GoMap.get_delete_same _ _, GoMap.get_delete_same _ _⟩
      rcases hl with ⟨e', he', hcb⟩ | h
      · rcases List.mem_cons.mp he' with rfl | hmem
        · exact Or.inr (hdone hcb)
        · exact Or.inl ⟨e', hmem, hcb⟩
      · exact Or.inr ⟨hp.1 _ h.1, hp.2 _ h.2⟩

/-- C4: after `addToPool` the view pool maps the handle of `v` to `v` and the
window pool maps the handle of its window to that window, other handles are
as before, and the destroy callback is registered; after that callback has
run, in whatever state, neither pool has an entry for the handles of `v` and
the entries of other handles are as before; and after the destroy fan-out of
`v` that follows `addToPool`, in whatever order, neither pool has an entry for
the handles of `v`. -/
theorem pool_register_lookup_unregister (ρ ρ' : RangeOrder) (v : Nat) (key : String)
    (mb : Blink) :
    (View.addToPool v key mb).GetViewByHandle (mb.mem v).Hwnd = some v ∧
      (View.addToPool v key mb).windows.get (mb.mem v).Window.Hwnd = some (mb.mem v).Window ∧
      (∀ h, h ≠ (mb.mem v).Hwnd → (View.addToPool v key mb).views.get h = mb.views.get h) ∧
      (∀ h, h ≠ (mb.mem v).Window.Hwnd →
        (View.addToPool v key mb).windows.get h = mb.windows.get h) ∧
      ((View.addToPool v key mb).mem v).onDestroyCallbacks.get key = some (.poolCleanup v) ∧
      (∀ mb₂ : Blink,
        ((OnDestroyCallback.poolCleanup v).invoke ρ mb₂).GetViewByHandle (mb₂.mem v).Hwnd = none ∧
        ((OnDestroyCallback.poolCleanup v).invoke ρ mb₂).windows.get (mb₂.mem v).Window.Hwnd
          = none ∧
        (∀ h, h ≠ (mb₂.mem v).Hwnd →
          ((OnDestroyCallback.poolCleanup v).invoke ρ mb₂).views.get h = mb₂.views.get h) ∧
        (∀ h, h ≠ (mb₂.mem v).Window.Hwnd →
          ((OnDestroyCallback.poolCleanup v).invoke ρ mb₂).windows.get h = mb₂.windows.get h)) ∧
      (View.registerOnDestroy.handler ρ ρ' v (View.addToPool v key mb)).1.GetViewByHandle
          (mb.mem v).Hwnd = none ∧
      (View.registerOnDestroy.handler ρ ρ' v (View.addToPool v key mb)).1.windows.get
          (mb.mem v).Window.Hwnd = none := by
  have hv : (View.addToPool v key mb).views = mb.views.set (mb.mem v).Hwnd v := rfl
  have hw : (View.addToPool v key mb).windows =
      mb.windows.set (mb.mem v).Window.Hwnd (mb.mem v).Window := rfl
  have hcb : ((View.addToPool v key mb).mem v).onDestroyCallbacks.get key =
      some (.poolCleanup v) := by
    simp only [View.addToPool, View.OnDestroy, Blink.emit_mem, Blink.modify_mem_same]
    exact GoMap.get_set_same _ _ _
  refine ⟨?_, ?_, ?_, ?_, hcb, ?_, ?_⟩
  · rw [Blink.GetViewByHandle, hv]; exact GoMap.get_set_same _ _ _
  · rw [hw]; exact GoMap.get_set_same _ _ _
  · intro h hh; rw [hv]; exact GoMap.get_set_ne _ _ hh
  · intro h hh; rw [hw]; exact GoMap.get_set_ne _ _ hh
  · intro mb₂
    have hc := cascade_fold v (ρ.pick (mb₂.views.delete (mb₂.mem v).Hwnd).entries)
      (View.addToPool.onDestroy.unregister v mb₂)
    simp only [] at hc
    simp only [OnDestroyCallback.invoke, Blink.GetViewByHandle, addToPool_onDestroy_eq, hc.2.1,
      hc.2.2.1, unregister_views, unregister_windows]
    exact ⟨GoMap.get_delete_same _ _, GoMap.get_delete_same _ _,
      fun h hh => GoMap.get_delete_ne _ hh, fun h hh => GoMap.get_delete_ne _ hh⟩
  · have hmem : ((View.addToPool v key mb).mem v).Hwnd = (mb.mem v).Hwnd ∧
        ((View.addToPool v key mb).mem v).Window.Hwnd = (mb.mem v).Window.Hwnd := by
      simp [View.addToPool, View.OnDestroy]
    have hfold := destroy_fold_unregisters ρ' v
      (ρ.pick ((View.addToPool v key mb).mem v).onDestroyCallbacks.entries)
      (View.addToPool v key mb) _ _ hmem
      (Or.inl ⟨(key, .poolCleanup v),
        (ρ.perm _).mem_iff.mpr ((GoMap.get_eq_some_iff _ _ _).mp hcb), rfl⟩)
    have hrange : (View.registerOnDestroy.handler ρ ρ' v (View.addToPool v key mb)).1 =
        (ρ.pick ((View.addToPool v key mb).mem v).onDestroyCallbacks.entries).foldl
          (fun s e => e.2.invoke ρ' s) (View.addToPool v key mb) := by
      unfold View.registerOnDestroy.handler View.registerOnDestroy.range
      rw [goRange_of_stable ρ (fun mb : Blink => (mb.mem v).onDestroyCallbacks)
        (fun _ callback mb => callback.invoke ρ' mb)
        (fun _ x s => by simp only [OnDestroyCallback.invoke_mem])]
    rw [hrange, Blink.GetViewByHandle]
    exact hfold

theorem children_filter_delete (p : Nat) (mb : Blink)
    (hreg : mb.views.get (mb.mem p).Hwnd = some p) (hself : (mb.mem p).parent ≠ some p) :
    (mb.views.delete (mb.mem p).Hwnd).entries.filter
        (fun e => decide ((mb.mem e.2).parent = some p)) =
      mb.views.entries.filter (fun e => decide ((mb.mem e.2).parent = some p)) := by
  simp only [GoMap.delete, List.filter_filter]
  apply List.filter_congr
  intro e he
  by_cases hpar : (mb.mem e.2).parent = some p
  · have hne : e.1 ≠ (mb.mem p).Hwnd := by
      intro hk
      have hget : mb.views.get (mb.mem p).Hwnd = some e.2 :=
        (GoMap.get_eq_some_iff _ _ _).mpr (hk ▸ he)
      rw [hreg] at hget
      have : e.2 = p := (Option.some.inj hget).symm
      rw [this] at hpar
      exact hself hpar
    simp [hpar, hne]
  · simp [hpar]

theorem pool_values_nodup (mb : Blink)
    (hown : ∀ e ∈ mb.views.entries, (mb.mem e.2).Hwnd = e.1) :
    (mb.views.entries.map Prod.snd).Nodup := by
  have hnd : mb.views.entries.Nodup := List.Nodup.of_map _ mb.views.nodup
  apply List.Nodup.map_on _ hnd
  intro e₁ h₁ e₂ h₂ heq
  have hk : e₁.1 = e₂.1 := by rw [← hown e₁ h₁, ← hown e₂ h₂, heq]
  exact Prod.ext hk heq

/-- C5: in a pool where every view is registered under its own handle, `p` is
registered and is not its own parent, and exactly `N` registered views have
`p` as their parent, the destroy callback of `p` first takes and releases the
lock, with the entries of `p` gone from both pools, and then issues exactly
`N` destroy requests, one to each registered view whose parent is `p`, none to
any other view and none twice, leaving the pools as they were after the
removal. -/
theorem destroy_cascade (ρ : RangeOrder) (p : Nat) (mb : Blink) (N : Nat)
    (hreg : mb.views.get (mb.mem p).Hwnd = some p) (hself : (mb.mem p).parent ≠ some p)
    (hown : ∀ e ∈ mb.views.entries, (mb.mem e.2).Hwnd = e.1)
    (hN : (mb.views.entries.filter (fun e => decide ((mb.mem e.2).parent = some p))).length = N) :
    ∃ children : List Nat,
      (View.addToPool.onDestroy.unregister p mb).log = mb.log ++ [.lock, .unlock] ∧
      (View.addToPool.onDestroy.unregister p mb).views.get (mb.mem p).Hwnd = none ∧
      (View.addToPool.onDestroy.unregister p mb).windows.get (mb.mem p).Window.Hwnd = none ∧
      (View.addToPool.onDestroy ρ p mb).log =
        (View.addToPool.onDestroy.unregister p mb).log ++ children.map Effect.windowDestroy ∧
      (View.addToPool.onDestroy ρ p mb).views = (View.addToPool.onDestroy.unregister p mb).views ∧
      (View.addToPool.onDestroy ρ p mb).windows =
        (View.addToPool.onDestroy.unregister p mb).windows ∧
      children.length = N ∧ children.Nodup ∧
      (∀ c, c ∈ children ↔ (mb.mem c).parent = some p ∧ ∃ h, mb.views.get h = some c) := by
  have hc := cascade_fold p (ρ.pick (mb.views.delete (mb.mem p).Hwnd).entries)
    (View.addToPool.onDestroy.unregister p mb)
  simp only [unregister_mem] at hc
  have hperm : ((ρ.pick (mb.views.delete (mb.mem p).Hwnd).entries).filter
      (fun e => decide ((mb.mem e.2).parent = some p))).Perm
      (mb.views.entries.filter (fun e => decide ((mb.mem e.2).parent = some p))) := by
    rw [← children_filter_delete p mb hreg hself]
    exact (ρ.perm _).filter _
  refine ⟨((ρ.pick (mb.views.delete (mb.mem p).Hwnd).entries).filter
      (fun e => decide ((mb.mem e.2).parent = some p))).map Prod.snd,
    unregister_log p mb, ?_, ?_, ?_, ?_, ?_, ?_, ?_, ?_⟩
  · rw [unregister_views]; exact GoMap.get_delete_same _ _
  · rw [unregister_windows]; exact GoMap.get_delete_same _ _
  · rw [addToPool_onDestroy_eq, hc.2.2.2, List.map_map]
    rfl
  · rw [addToPool_onDestroy_eq, hc.2.1]
  · rw [addToPool_onDestroy_eq, hc.2.2.1]
  · rw [List.length_map, hperm.length_eq, hN]
  · rw [(hperm.map Prod.snd).nodup_iff]
    exact (pool_values_nodup mb hown).sublist (List.Sublist.map _ (List.filter_sublist _))
  · intro c
    rw [(hperm.map Prod.snd).mem_iff, List.mem_map]
    constructor
    · rintro ⟨e, he, rfl⟩
      rw [List.mem_filter] at he
      exact ⟨by simpa using he.2, e.1, (GoMap.get_eq_some_iff _ _ _).mpr he.1⟩
    · rintro ⟨hpar, h, hget⟩
      refine ⟨(h, c), ?_, rfl⟩
      rw [List.mem_filter]
      exact ⟨(GoMap.get_eq_some_iff _ _ _).mp hget, by simpa using hpar⟩

/-- C5, at a concrete pool: the view at address 0 has the two children 1 and
2 among four registered views. -/
theorem destroy_cascade_witness :
    ∃ children : List Nat,
      (View.addToPool.onDestroy.unregister 0 Blink.family).log =
        Blink.family.log ++ [.lock, .unlock] ∧
      (View.addToPool.onDestroy.unregister 0 Blink.family).views.get (Blink.family.mem 0).Hwnd
        = none ∧
      (View.addToPool.onDestroy.unregister 0 Blink.family).windows.get
        (Blink.family.mem 0).Window.Hwnd = none ∧
      (View.addToPool.onDestroy RangeOrder.reversed 0 Blink.family).log =
        (View.addToPool.onDestroy.unregister 0 Blink.family).log ++
          children.map Effect.windowDestroy ∧
      (View.addToPool.onDestroy RangeOrder.reversed 0 Blink.family).views =
        (View.addToPool.onDestroy.unregister 0 Blink.family).views ∧
      (View.addToPool.onDestroy RangeOrder.reversed 0 Blink.family).windows =
        (View.addToPool.onDestroy.unregister 0 Blink.family).windows ∧
      children.length = 2 ∧ children.Nodup ∧
      (∀ c, c ∈ children ↔
        (Blink.family.mem c).parent = some 0 ∧ ∃ h, Blink.family.views.get h = some c) :=
  destroy_cascade RangeOrder.reversed 0 Blink.family 2 (by decide) (by decide) (by decide)
    (by decide)

/-! ## Adding a listener -/

/-- C6 (counterexample): a second `OnClosing` that draws the token "k" of an
earlier one replaces the callback stored under "k"; the registry still has one
entry and the callback registered before is gone. -/
theorem onClosing_overwrites_on_token_collision :
    (((View.OnClosing 0 "k" ⟨1, fun _ => false⟩ Blink.fresh).mem 0).onClosingCallbacks.get
        "k").map (fun cb => cb.id) = some 1 ∧
      (((View.OnClosing 0 "k" ⟨2, fun _ => true⟩
        (View.OnClosing 0 "k" ⟨1, fun _ => false⟩ Blink.fresh)).mem 0).onClosingCallbacks.get
        "k").map (fun cb => cb.id) = some 2 ∧
      ((View.OnClosing 0 "k" ⟨1, fun _ => false⟩ Blink.fresh).mem 0).onClosingCallbacks.len = 1 ∧
      ((View.OnClosing 0 "k" ⟨2, fun _ => true⟩
        (View.OnClosing 0 "k" ⟨1, fun _ => false⟩ Blink.fresh)).mem 0).onClosingCallbacks.len
        = 1 := by
  decide

/-- C6 (amended): `OnClosing` and `OnDidCreateScriptContext` always store the
callback under the token drawn and leave every other token as it was; when the
token was not in the registry the registry has one more entry, and when it was
there the callback stored under it is replaced and the number of entries is
the same: no check of the token is made and no error is reported. -/
theorem add_listener_by_token (v : Nat) (key : String) (mb : Blink)
    (callback : OnClosingCallback) (callback' : OnDidCreateScriptContextCallback) :
    (((View.OnClosing v key callback mb).mem v).onClosingCallbacks.get key = some callback ∧
      (∀ k, k ≠ key → ((View.OnClosing v key callback mb).mem v).onClosingCallbacks.get k =
        (mb.mem v).onClosingCallbacks.get k) ∧
      ((mb.mem v).onClosingCallbacks.get key = none →
        ((View.OnClosing v key callback mb).mem v).onClosingCallbacks.len =
          (mb.mem v).onClosingCallbacks.len + 1) ∧
      (∀ old, (mb.mem v).onClosingCallbacks.get key = some old →
        ((View.OnClosing v key callback mb).mem v).onClosingCallbacks.len =
          (mb.mem v).onClosingCallbacks.len)) ∧
    (((View.OnDidCreateScriptContext v key callback' mb).mem
        v).onDidCreateScriptContextCallbacks.get key = some callback' ∧
      (∀ k, k ≠ key →
        ((View.OnDidCreateScriptContext v key callback' mb).mem
          v).onDidCreateScriptContextCallbacks.get k =
        (mb.mem v).onDidCreateScriptContextCallbacks.get k) ∧
      ((mb.mem v).onDidCreateScriptContextCallbacks.get key = none →
        ((View.OnDidCreateScriptContext v key callback' mb).mem
          v).onDidCreateScriptContextCallbacks.len =
          (mb.mem v).onDidCreateScriptContextCallbacks.len + 1) ∧
      (∀ old, (mb.mem v).onDidCreateScriptContextCallbacks.get key = some old →
        ((View.OnDidCreateScriptContext v key callback' mb).mem
          v).onDidCreateScriptContextCallbacks.len =
          (mb.mem v).onDidCreateScriptContextCallbacks.len)) := by
  simp only [View.OnClosing, View.OnDidCreateScriptContext, Blink.modify_mem_same]
  exact ⟨⟨GoMap.get_set_same _ _ _, fun k hk => GoMap.get_set_ne _ _ hk,
      GoMap.len_set_of_get_none _ _ _, fun old => GoMap.len_set_of_get_some _ _ _ old⟩,
    ⟨GoMap.get_set_same _ _ _, fun k hk => GoMap.get_set_ne _ _ hk,
      GoMap.len_set_of_get_none _ _ _, fun old => GoMap.len_set_of_get_some _ _ _ old⟩⟩

/-! ## Fan-out to every listener -/

theorem calledEachOnce_of_stable {V : Type} (ρ : RangeOrder) (sel : Blink → GoMap String V)
    (call : V → Blink → Blink) (hsel : ∀ x s, sel (call x s) = sel s) (mb : Blink) :
    CalledEachOnce (sel mb) call mb (goRange ρ sel (fun _ callback mb => call callback mb) mb) := by
  rw [goRange_of_stable ρ sel _ (fun _ x s => hsel x s)]
  exact ⟨ρ.perm _, rfl⟩

theorem OnDocumentReadyCallback.invoke_registry (v : Nat) (frame : Nat) (key : String)
    (cb : OnDocumentReadyCallback) (hcb : cb.registeredBy v key) (s : Blink) :
    ((cb.invoke frame s).mem v).onDocumentReadyCallbacks = (s.mem v).onDocumentReadyCallbacks ∨
      ((cb.invoke frame s).mem v).onDocumentReadyCallbacks =
        (s.mem v).onDocumentReadyCallbacks.delete key := by
  cases cb with
  | runJS v' script stop =>
    obtain ⟨rfl, rfl⟩ := hcb
    by_cases hm : View.IsMainFrame v' frame s = true
    · right
      simp [OnDocumentReadyCallback.invoke, hm, View.OnDocumentReady.stop, Blink.CallFunc]
    · left
      simp [OnDocumentReadyCallback.invoke, hm]
  | runJsByFrame v' frame' script isInClosure stop =>
    obtain ⟨rfl, rfl⟩ := hcb
    by_cases hm : frame = frame'
    · right
      simp [OnDocumentReadyCallback.invoke, hm, View.OnDocumentReady.stop, Blink.CallFunc]
    · left
      simp [OnDocumentReadyCallback.invoke, hm]
  | app id => left; rfl

theorem registerOnDocumentReady_range_eq (ρ : RangeOrder) (v : Nat) (frame : Nat) (mb : Blink)
    (hwf : View.documentReadyWellFormed v mb) :
    View.registerOnDocumentReady.range ρ v frame mb =
      ((ρ.pick (mb.mem v).onDocumentReadyCallbacks.entries).foldl
        (fun s e => e.2.invoke frame s) mb,
        ρ.pick (mb.mem v).onDocumentReadyCallbacks.entries) := by
  unfold View.registerOnDocumentReady.range goRange
  apply goRangeLoop_of_own_delete
  · rw [((ρ.perm _).map Prod.fst).nodup_iff]
    exact (mb.mem v).onDocumentReadyCallbacks.nodup
  · intro e he
    exact (ρ.perm _).mem_iff.mp he
  · intro e he s
    exact OnDocumentReadyCallback.invoke_registry v frame e.1 e.2
      (hwf e ((ρ.perm _).mem_iff.mp he)) s

/-- C7: each trampoline of a notify-all registry (title changed, destroy,
document ready, load-url end, download, script context created) calls the
callback of every entry of its registry exactly once, in some order, each on
the arguments decoded once before the loop, and returns zero whatever the
callbacks do. For the document-ready registry, whose callbacks may remove
themselves, the entries are those that `view.go` stores. -/
theorem notify_all_calls_each_once (ρ ρ' : RangeOrder) (v : Nat) (mb : Blink)
    (title url job buf len frame context : Nat) (exGroup worldId : Int)
    (hwf : View.documentReadyWellFormed v mb) :
    (CalledEachOnce (mb.mem v).onTitleChangedCallbacks
        (fun cb s => s.emit (.callback cb.id [.str (mb.engine.stringAt title)])) mb
        (View.registerOnTitleChanged.range ρ v title mb) ∧
      View.registerOnTitleChanged.handler ρ v title mb =
        ((View.registerOnTitleChanged.range ρ v title mb).1, 0)) ∧
    (CalledEachOnce (mb.mem v).onDestroyCallbacks (fun cb s => cb.invoke ρ' s) mb
        (View.registerOnDestroy.range ρ ρ' v mb) ∧
      View.registerOnDestroy.handler ρ ρ' v mb =
        ((View.registerOnDestroy.range ρ ρ' v mb).1, 0)) ∧
    (CalledEachOnce (mb.mem v).onDocumentReadyCallbacks (fun cb s => cb.invoke frame s) mb
        (View.registerOnDocumentReady.range ρ v frame mb) ∧
      View.registerOnDocumentReady.handler ρ v frame mb =
        ((View.registerOnDocumentReady.range ρ v frame mb).1, 0)) ∧
    (CalledEachOnce (mb.mem v).onLoadUrlEndCallbacks
        (fun cb s => s.emit (.callback cb.id
          [.str (mb.engine.stringAt url), .num job, .bytes (mb.engine.bytesAt buf len)])) mb
        (View.registerOnLoadUrlEnd.range ρ v url job buf len mb) ∧
      View.registerOnLoadUrlEnd.handler ρ v url job buf len mb =
        ((View.registerOnLoadUrlEnd.range ρ v url job buf len mb).1, 0)) ∧
    (CalledEachOnce (mb.mem v).onDownloadCallbacks
        (fun cb s => cb.invoke (mb.engine.stringAt url) s) mb
        (View.registerOnDownload.range ρ v url mb) ∧
      View.registerOnDownload.handler ρ v url mb =
        ((View.registerOnDownload.range ρ v url mb).1, 0)) ∧
    (CalledEachOnce (mb.mem v).onDidCreateScriptContextCallbacks
        (fun cb s => cb.invoke frame context exGroup worldId s) mb
        (View.registerOnDidCreateScriptContext.range ρ v frame context exGroup worldId mb) ∧
      View.registerOnDidCreateScriptContext.handler ρ v frame context exGroup worldId mb =
        ((View.registerOnDidCreateScriptContext.range ρ v frame context exGroup worldId mb).1,
          0)) := by
  refine ⟨⟨?_, rfl⟩, ⟨?_, rfl⟩, ⟨?_, rfl⟩, ⟨?_, rfl⟩, ⟨?_, rfl⟩, ⟨?_, rfl⟩⟩
  · exact calledEachOnce_of_stable ρ (fun mb => (mb.mem v).onTitleChangedCallbacks)
      (fun cb s => s.emit (.callback cb.id [.str (mb.engine.stringAt title)])) (fun _ _ => rfl) mb
  · exact calledEachOnce_of_stable ρ (fun mb => (mb.mem v).onDestroyCallbacks)
      (fun cb s => cb.invoke ρ' s) (fun x s => by simp only [OnDestroyCallback.invoke_mem]) mb
  · rw [registerOnDocumentReady_range_eq ρ v frame mb hwf]
    exact ⟨ρ.perm _, rfl⟩
  · exact calledEachOnce_of_stable ρ (fun mb => (mb.mem v).onLoadUrlEndCallbacks)
      (fun cb s => s.emit (.callback cb.id
        [.str (mb.engine.stringAt url), .num job, .bytes (mb.engine.bytesAt buf len)]))
      (fun _ _ => rfl) mb
  · exact calledEachOnce_of_stable ρ (fun mb => (mb.mem v).onDownloadCallbacks) _
      (fun x s => by cases x <;> rfl) mb
  · exact calledEachOnce_of_stable ρ (fun mb => (mb.mem v).onDidCreateScriptContextCallbacks) _
      (fun x s => by cases x <;> rfl) mb

/-- C7, at a concrete state and a range that visits the maps last to first. -/
theorem notify_all_calls_each_once_witness :
    (CalledEachOnce (Blink.sample.mem 0).onTitleChangedCallbacks
        (fun cb s => s.emit (.callback cb.id [.str (Blink.sample.engine.stringAt 1)]))
        Blink.sample (View.registerOnTitleChanged.range RangeOrder.reversed 0 1 Blink.sample) ∧
      View.registerOnTitleChanged.handler RangeOrder.reversed 0 1 Blink.sample =
        ((View.registerOnTitleChanged.range RangeOrder.reversed 0 1 Blink.sample).1, 0)) ∧
    (CalledEachOnce (Blink.sample.mem 0).onDestroyCallbacks
        (fun cb s => cb.invoke RangeOrder.stored s) Blink.sample
        (View.registerOnDestroy.range RangeOrder.reversed RangeOrder.stored 0 Blink.sample) ∧
      View.registerOnDestroy.handler RangeOrder.reversed RangeOrder.stored 0 Blink.sample =
        ((View.registerOnDestroy.range RangeOrder.reversed RangeOrder.stored 0 Blink.sample).1,
          0)) ∧
    (CalledEachOnce (Blink.sample.mem 0).onDocumentReadyCallbacks
        (fun cb s => cb.invoke 1 s) Blink.sample
        (View.registerOnDocumentReady.range RangeOrder.reversed 0 1 Blink.sample) ∧
      View.registerOnDocumentReady.handler RangeOrder.reversed 0 1 Blink.sample =
        ((View.registerOnDocumentReady.range RangeOrder.reversed 0 1 Blink.sample).1, 0)) ∧
    (CalledEachOnce (Blink.sample.mem 0).onLoadUrlEndCallbacks
        (fun cb s => s.emit (.callback cb.id
          [.str (Blink.sample.engine.stringAt 2), .num 3,
            .bytes (Blink.sample.engine.bytesAt 4 5)])) Blink.sample
        (View.registerOnLoadUrlEnd.range RangeOrder.reversed 0 2 3 4 5 Blink.sample) ∧
      View.registerOnLoadUrlEnd.handler RangeOrder.reversed 0 2 3 4 5 Blink.sample =
        ((View.registerOnLoadUrlEnd.range RangeOrder.reversed 0 2 3 4 5 Blink.sample).1, 0)) ∧
    (CalledEachOnce (Blink.sample.mem 0).onDownloadCallbacks
        (fun cb s => cb.invoke (Blink.sample.engine.stringAt 2) s) Blink.sample
        (View.registerOnDownload.range RangeOrder.reversed 0 2 Blink.sample) ∧
      View.registerOnDownload.handler RangeOrder.reversed 0 2 Blink.sample =
        ((View.registerOnDownload.range RangeOrder.reversed 0 2 Blink.sample).1, 0)) ∧
    (CalledEachOnce (Blink.sample.mem 0).onDidCreateScriptContextCallbacks
        (fun cb s => cb.invoke 1 6 0 0 s) Blink.sample
        (View.registerOnDidCreateScriptContext.range RangeOrder.reversed 0 1 6 0 0 Blink.sample) ∧
      View.registerOnDidCreateScriptContext.handler RangeOrder.reversed 0 1 6 0 0 Blink.sample =
        ((View.registerOnDidCreateScriptContext.range RangeOrder.reversed 0 1 6 0 0
          Blink.sample).1, 0)) :=
  notify_all_calls_each_once RangeOrder.reversed RangeOrder.stored 0 Blink.sample 1 2 3 4 5 1 6 0 0
    (by decide)

/-! ## Deferred scripts -/

theorem OnDocumentReadyCallback.invoke_spec (v : Nat) (frame : Nat) (key : String)
    (cb : OnDocumentReadyCallback) (hcb : cb.registeredBy v key) (s : Blink) :
    (cb.invoke frame s).engine = s.engine ∧
      ((cb.invoke frame s).mem v).Hwnd = (s.mem v).Hwnd ∧
      (cb.invoke frame s).log =
        s.log ++ cb.effects (s.mem v).Hwnd (View.IsMainFrame v frame s) frame ∧
      ((cb.invoke frame s).mem v).onDocumentReadyCallbacks =
        if cb.fires (View.IsMainFrame v frame s) frame then
          (s.mem v).onDocumentReadyCallbacks.delete key
        else (s.mem v).onDocumentReadyCallbacks := by
  cases cb with
  | runJS v' script stop =>
    obtain ⟨rfl, rfl⟩ := hcb
    by_cases hm : View.IsMainFrame v' frame s = true
    · simp [OnDocumentReadyCallback.invoke, OnDocumentReadyCallback.effects,
        OnDocumentReadyCallback.fires, hm, View.OnDocumentReady.stop, Blink.CallFunc,
        Blink.modify, Blink.emit]
    · simp [OnDocumentReadyCallback.invoke, OnDocumentReadyCallback.effects,
        OnDocumentReadyCallback.fires, hm]
  | runJsByFrame v' frame' script isInClosure stop =>
    obtain ⟨rfl, rfl⟩ := hcb
    by_cases hm : frame = frame'
    · simp [OnDocumentReadyCallback.invoke, OnDocumentReadyCallback.effects,
        OnDocumentReadyCallback.fires, hm, View.OnDocumentReady.stop, Blink.CallFunc,
        Blink.modify, Blink.emit]
    · simp [OnDocumentReadyCallback.invoke, OnDocumentReadyCallback.effects,
        OnDocumentReadyCallback.fires, hm]
  | app id =>
    simp [OnDocumentReadyCallback.invoke, OnDocumentReadyCallback.effects,
      OnDocumentReadyCallback.fires, Blink.emit]

theorem documentReady_fold_spec (v : Nat) (frame : Nat)
    (l : List (String × OnDocumentReadyCallback)) (s : Blink)
    (hl : ∀ e ∈ l, e.2.registeredBy v e.1) :
    (l.foldl (fun s e => e.2.invoke frame s) s).engine = s.engine ∧
      ((l.foldl (fun s e => e.2.invoke frame s) s).mem v).Hwnd = (s.mem v).Hwnd ∧
      (l.foldl (fun s e => e.2.invoke frame s) s).log =
        s.log ++ l.flatMap
          (fun e => e.2.effects (s.mem v).Hwnd (View.IsMainFrame v frame s) frame) ∧
      ((l.foldl (fun s e => e.2.invoke frame s) s).mem v).onDocumentReadyCallbacks.entries =
        (s.mem v).onDocumentReadyCallbacks.entries.filter
          (fun e => decide (e.1 ∉
            (l.filter (fun e => e.2.fires (View.IsMainFrame v frame s) frame)).map Prod.fst)) := by
  induction l generalizing s with
  | nil => simp
  | cons e rest ih =>
    obtain ⟨h1, h2, h3, h4⟩ := OnDocumentReadyCallback.invoke_spec v frame e.1 e.2
      (hl e (List.mem_cons_self _ _)) s
    obtain ⟨i1, i2, i3, i4⟩ := ih (e.2.invoke frame s) (fun e he => hl e (List.mem_cons_of_mem _ he))
    have hmain : View.IsMainFrame v frame (e.2.invoke frame s) = View.IsMainFrame v frame s := by
      simp only [View.IsMainFrame, h1, h2]
    rw [hmain, h2] at i3
    rw [hmain] at i4
    simp only [List.foldl_cons]
    refine ⟨i1.trans h1, i2.trans h2, ?_, ?_⟩
    · rw [i3, h3, List.flatMap_cons, List.append_assoc]
    · rw [i4, h4]
      by_cases hf : e.2.fires (View.IsMainFrame v frame s) frame = true
      · simp only [hf, ↓reduceIte, GoMap.delete, List.filter_filter, List.filter_cons,
          List.map_cons, List.mem_cons, not_or]
        apply List.filter_congr
        intro x _
        by_cases hx : x.1 = e.1 <;> simp [hx]
      · simp only [hf, Bool.false_eq_true, ↓reduceIte, List.filter_cons]

theorem registry_entry_unique {V : Type} (m : GoMap String V) {e e' : String × V}
    (he : e ∈ m.entries) (he' : e' ∈ m.entries) (hk : e'.1 = e.1) : e' = e := by
  have h1 := (GoMap.get_eq_some_iff m e.1 e.2).mpr he
  have h2 := (GoMap.get_eq_some_iff m e'.1 e'.2).mpr he'
  rw [hk, h1] at h2
  exact Prod.ext hk (Option.some.inj h2).symm

theorem documentReady_handler_spec (ρ : RangeOrder) (v : Nat) (frame : Nat) (mb : Blink)
    (hwf : View.documentReadyWellFormed v mb) :
    (View.registerOnDocumentReady.handler ρ v frame mb).1.engine = mb.engine ∧
      ((View.registerOnDocumentReady.handler ρ v frame mb).1.mem v).Hwnd = (mb.mem v).Hwnd ∧
      (View.registerOnDocumentReady.handler ρ v frame mb).1.log =
        mb.log ++ (ρ.pick (mb.mem v).onDocumentReadyCallbacks.entries).flatMap
          (fun e => e.2.effects (mb.mem v).Hwnd (View.IsMainFrame v frame mb) frame) ∧
      ((View.registerOnDocumentReady.handler ρ v frame mb).1.mem
          v).onDocumentReadyCallbacks.entries =
        (mb.mem v).onDocumentReadyCallbacks.entries.filter
          (fun e => !e.2.fires (View.IsMainFrame v frame mb) frame) := by
  have hpick : ∀ e ∈ ρ.pick (mb.mem v).onDocumentReadyCallbacks.entries,
      e.2.registeredBy v e.1 := fun e he => hwf e ((ρ.perm _).mem_iff.mp he)
  obtain ⟨h1, h2, h3, h4⟩ := documentReady_fold_spec v frame _ mb hpick
  simp only [View.registerOnDocumentReady.handler, registerOnDocumentReady_range_eq ρ v frame mb hwf]
  refine ⟨h1, h2, h3, ?_⟩
  rw [h4]
  apply List.filter_congr
  intro e he
  by_cases hf : e.2.fires (View.IsMainFrame v frame mb) frame = true
  · have : e.1 ∈ ((ρ.pick (mb.mem v).onDocumentReadyCallbacks.entries).filter
        (fun e => e.2.fires (View.IsMainFrame v frame mb) frame)).map Prod.fst :=
      List.mem_map.mpr ⟨e, List.mem_filter.mpr ⟨(ρ.perm _).mem_iff.mpr he, hf⟩, rfl⟩
    simp [hf, this]
  · have : e.1 ∉ ((ρ.pick (mb.mem v).onDocumentReadyCallbacks.entries).filter
        (fun e => e.2.fires (View.IsMainFrame v frame mb) frame)).map Prod.fst := by
      intro hmem
      obtain ⟨e', he', hk⟩ := List.mem_map.mp hmem
      rw [List.mem_filter] at he'
      have := registry_entry_unique _ he ((ρ.perm _).mem_iff.mp he'.1) hk
      rw [this] at he'
      exact hf he'.2
    simp [hf, this]

theorem documentReady_handler_wellFormed (ρ : RangeOrder) (v : Nat) (frame : Nat) (mb : Blink)
    (hwf : View.documentReadyWellFormed v mb) :
    View.documentReadyWellFormed v (View.registerOnDocumentReady.handler ρ v frame mb).1 := by
  intro e he
  rw [(documentReady_handler_spec ρ v frame mb hwf).2.2.2] at he
  exact hwf e (List.mem_filter.mp he).1

theorem documentReadyEvents_same (v : Nat) (eng : Engine) (hwnd : Nat) (xs : List Effect)
    (es : List (RangeOrder × Nat)) (mb₁ mb₂ : Blink)
    (he₁ : mb₁.engine = eng) (he₂ : mb₂.engine = eng)
    (hh₁ : (mb₁.mem v).Hwnd = hwnd) (hh₂ : (mb₂.mem v).Hwnd = hwnd)
    (hwf : View.documentReadyWellFormed v mb₂)
    (hreg : (mb₁.mem v).onDocumentReadyCallbacks = (mb₂.mem v).onDocumentReadyCallbacks)
    (hlog : mb₁.log.Perm (xs ++ mb₂.log)) :
    ((View.documentReadyEvents v es mb₁).mem v).onDocumentReadyCallbacks =
        ((View.documentReadyEvents v es mb₂).mem v).onDocumentReadyCallbacks ∧
      (View.documentReadyEvents v es mb₁).log.Perm
        (xs ++ (View.documentReadyEvents v es mb₂).log) := by
  induction es generalizing mb₁ mb₂ with
  | nil => exact ⟨hreg, hlog⟩
  | cons e es ih =>
    obtain ⟨ρ, frame⟩ := e
    have hwf₁ : View.documentReadyWellFormed v mb₁ := by
      intro e he; rw [hreg] at he; exact hwf e he
    obtain ⟨a1, a2, a3, a4⟩ := documentReady_handler_spec ρ v frame mb₁ hwf₁
    obtain ⟨b1, b2, b3, b4⟩ := documentReady_handler_spec ρ v frame mb₂ hwf
    have hmain : View.IsMainFrame v frame mb₁ = View.IsMainFrame v frame mb₂ := by
      simp only [View.IsMainFrame, he₁, he₂, hh₁, hh₂]
    simp only [View.documentReadyEvents]
    apply ih
    · rw [a1, he₁]
    · rw [b1, he₂]
    · rw [a2, hh₁]
    · rw [b2, hh₂]
    · exact documentReady_handler_wellFormed ρ v frame mb₂ hwf
    · apply GoMap.ext_entries
      rw [a4, b4, hreg, hmain]
    · rw [a3, b3, hreg, hmain, hh₁, hh₂, ← List.append_assoc]
      exact hlog.append_right _

theorem documentReadyEvents_pending (v : Nat) (script key : String) (eng : Engine) (hwnd : Nat)
    (es : List (RangeOrder × Nat)) (mb₁ mb₂ : Blink)
    (he₁ : mb₁.engine = eng) (he₂ : mb₂.engine = eng)
    (hh₁ : (mb₁.mem v).Hwnd = hwnd) (hh₂ : (mb₂.mem v).Hwnd = hwnd)
    (hwf : View.documentReadyWellFormed v mb₂)
    (hfresh : (mb₂.mem v).onDocumentReadyCallbacks.get key = none)
    (hreg : (mb₁.mem v).onDocumentReadyCallbacks.entries =
      (mb₂.mem v).onDocumentReadyCallbacks.entries ++ [(key, .runJS v script key)])
    (hlog : mb₁.log.Perm mb₂.log) :
    ((∀ e ∈ es, eng.isMainFrame hwnd e.2 = false) →
        ((View.documentReadyEvents v es mb₁).mem v).onDocumentReadyCallbacks.entries =
          ((View.documentReadyEvents v es mb₂).mem v).onDocumentReadyCallbacks.entries ++
            [(key, .runJS v script key)] ∧
        (View.documentReadyEvents v es mb₁).log.Perm (View.documentReadyEvents v es mb₂).log) ∧
      ((∃ e ∈ es, eng.isMainFrame hwnd e.2 = true) →
        ((View.documentReadyEvents v es mb₁).mem v).onDocumentReadyCallbacks =
          ((View.documentReadyEvents v es mb₂).mem v).onDocumentReadyCallbacks ∧
        (View.documentReadyEvents v es mb₁).log.Perm
          (Effect.call "wkeRunJS" [.num hwnd, .str script] ::
            (View.documentReadyEvents v es mb₂).log)) := by
  induction es generalizing mb₁ mb₂ with
  | nil =>
    refine ⟨fun _ => ⟨hreg, hlog⟩, ?_⟩
    rintro ⟨e, he, _⟩
    cases he
  | cons e es ih =>
    obtain ⟨ρ, frame⟩ := e
    have hwf₁ : View.documentReadyWellFormed v mb₁ := by
      intro e he
      rw [hreg, List.mem_append, List.mem_singleton] at he
      rcases he with he | rfl
      · exact hwf e he
      · exact ⟨rfl, rfl⟩
    obtain ⟨a1, a2, a3, a4⟩ := documentReady_handler_spec ρ v frame mb₁ hwf₁
    obtain ⟨b1, b2, b3, b4⟩ := documentReady_handler_spec ρ v frame mb₂ hwf
    have hm₁ : View.IsMainFrame v frame mb₁ = eng.isMainFrame hwnd frame := by
      simp only [View.IsMainFrame, he₁, hh₁]
    have hm₂ : View.IsMainFrame v frame mb₂ = eng.isMainFrame hwnd frame := by
      simp only [View.IsMainFrame, he₂, hh₂]
    rw [hm₁, hh₁] at a3
    rw [hm₁] at a4
    rw [hm₂, hh₂] at b3
    rw [hm₂] at b4
    have hfresh' : ((View.registerOnDocumentReady.handler ρ v frame mb₂).1.mem
        v).onDocumentReadyCallbacks.get key = none := by
      rw [GoMap.get_eq_none_iff] at hfresh ⊢
      intro hk
      obtain ⟨e, he, hek⟩ := List.mem_map.mp hk
      rw [b4] at he
      exact hfresh (List.mem_map.mpr ⟨e, (List.mem_filter.mp he).1, hek⟩)
    have hlog' : (View.registerOnDocumentReady.handler ρ v frame mb₁).1.log.Perm
        ((OnDocumentReadyCallback.runJS v script key).effects hwnd
            (eng.isMainFrame hwnd frame) frame ++
          (View.registerOnDocumentReady.handler ρ v frame mb₂).1.log) := by
      rw [a3, b3]
      have p1 := (ρ.perm (mb₁.mem v).onDocumentReadyCallbacks.entries).flatMap_right
        (fun e => e.2.effects hwnd (eng.isMainFrame hwnd frame) frame)
      have p2 := (ρ.perm (mb₂.mem v).onDocumentReadyCallbacks.entries).flatMap_right
        (fun e => e.2.effects hwnd (eng.isMainFrame hwnd frame) frame)
      have q : (mb₁.mem v).onDocumentReadyCallbacks.entries.flatMap
          (fun e => e.2.effects hwnd (eng.isMainFrame hwnd frame) frame) =
          (mb₂.mem v).onDocumentReadyCallbacks.entries.flatMap
            (fun e => e.2.effects hwnd (eng.isMainFrame hwnd frame) frame) ++
          (OnDocumentReadyCallback.runJS v script key).effects hwnd
            (eng.isMainFrame hwnd frame) frame := by
        rw [hreg, List.flatMap_append]
        simp only [List.flatMap_cons, List.flatMap_nil, List.append_nil]
      rw [q] at p1
      calc mb₁.log ++ _
          |>.Perm (mb₂.log ++ (((mb₂.mem v).onDocumentReadyCallbacks.entries.flatMap
              (fun e => e.2.effects hwnd (eng.isMainFrame hwnd frame) frame)) ++
              (OnDocumentReadyCallback.runJS v script key).effects hwnd
                (eng.isMainFrame hwnd frame) frame)) := hlog.append p1
        _ |>.Perm ((mb₂.log ++ ((ρ.pick (mb₂.mem v).onDocumentReadyCallbacks.entries).flatMap
              (fun e => e.2.effects hwnd (eng.isMainFrame hwnd frame) frame))) ++
              (OnDocumentReadyCallback.runJS v script key).effects hwnd
                (eng.isMainFrame hwnd frame) frame) := by
            rw [← List.append_assoc]
            exact (p2.symm.append_left _).append_right _
        _ |>.Perm _ := List.perm_append_comm
    simp only [View.documentReadyEvents]
    by_cases hmain : eng.isMainFrame hwnd frame = true
    · -- the listener runs the script and removes itself at this event
      have hreg' : ((View.registerOnDocumentReady.handler ρ v frame mb₁).1.mem
          v).onDocumentReadyCallbacks =
          ((View.registerOnDocumentReady.handler ρ v frame mb₂).1.mem
            v).onDocumentReadyCallbacks := by
        apply GoMap.ext_entries
        rw [a4, b4, hreg, List.filter_append]
        simp [OnDocumentReadyCallback.fires, hmain]
      simp only [OnDocumentReadyCallback.effects, hmain, ↓reduceIte] at hlog'
      have hsame := documentReadyEvents_same v eng hwnd
        [Effect.call "wkeRunJS" [.num hwnd, .str script]] es _ _
        (a1.trans he₁) (b1.trans he₂) (a2.trans hh₁) (b2.trans hh₂)
        (documentReady_handler_wellFormed ρ v frame mb₂ hwf) hreg' hlog'
      refine ⟨fun hall => ?_, fun _ => hsame⟩
      have := hall (ρ, frame) (List.mem_cons_self _ _)
      simp only [hmain] at this
      cases this
    · -- the listener does nothing at this event and stays registered
      have hreg' : ((View.registerOnDocumentReady.handler ρ v frame mb₁).1.mem
          v).onDocumentReadyCallbacks.entries =
          ((View.registerOnDocumentReady.handler ρ v frame mb₂).1.mem
            v).onDocumentReadyCallbacks.entries ++ [(key, .runJS v script key)] := by
        rw [a4, b4, hreg, List.filter_append]
        simp [OnDocumentReadyCallback.fires, hmain]
      simp only [OnDocumentReadyCallback.effects, hmain, Bool.false_eq_true, ↓reduceIte,
        List.nil_append] at hlog'
      have hih := ih _ _ (a1.trans he₁) (b1.trans he₂) (a2.trans hh₁) (b2.trans hh₂)
        (documentReady_handler_wellFormed ρ v frame mb₂ hwf) hfresh' hreg' hlog'
      refine ⟨fun hall => hih.1 (fun e he => hall e (List.mem_cons_of_mem _ he)), ?_⟩
      rintro ⟨e, he, hem⟩
      rcases List.mem_cons.mp he with rfl | he
      · exact absurd hem hmain
      · exact hih.2 ⟨e, he, hem⟩

theorem documentReadyEvents_app_only (v : Nat) (es : List (RangeOrder × Nat)) (mb : Blink)
    (happ : ∀ e ∈ (mb.mem v).onDocumentReadyCallbacks.entries, ∃ id, e.2 = .app id) :
    ((View.documentReadyEvents v es mb).mem v).onDocumentReadyCallbacks =
        (mb.mem v).onDocumentReadyCallbacks ∧
      ∀ fn args, (View.documentReadyEvents v es mb).log.count (Effect.call fn args) =
        mb.log.count (Effect.call fn args) := by
  induction es generalizing mb with
  | nil => exact ⟨rfl, fun _ _ => rfl⟩
  | cons e es ih =>
    obtain ⟨ρ, frame⟩ := e
    have hwf : View.documentReadyWellFormed v mb := by
      intro e he
      obtain ⟨id, hid⟩ := happ e he
      rw [hid]
      trivial
    obtain ⟨_, _, a3, a4⟩ := documentReady_handler_spec ρ v frame mb hwf
    have hreg : ((View.registerOnDocumentReady.handler ρ v frame mb).1.mem
        v).onDocumentReadyCallbacks = (mb.mem v).onDocumentReadyCallbacks := by
      apply GoMap.ext_entries
      rw [a4, List.filter_eq_self]
      intro e he
      obtain ⟨id, hid⟩ := happ e he
      simp [hid, OnDocumentReadyCallback.fires]
    have hih := ih (View.registerOnDocumentReady.handler ρ v frame mb).1 (by rw [hreg]; exact happ)
    simp only [View.documentReadyEvents]
    refine ⟨hih.1.trans hreg, fun fn args => ?_⟩
    rw [hih.2, a3, List.count_append, Nat.add_right_eq_self, List.count_eq_zero]
    intro hmem
    obtain ⟨e, he, hin⟩ := List.mem_flatMap.mp hmem
    obtain ⟨id, hid⟩ := happ e ((ρ.perm _).mem_iff.mp he)
    simp [hid, OnDocumentReadyCallback.effects] at hin

/-- C8: `RunJS` on a view whose document is ready runs the script at once and
adds no listener. Otherwise it adds one listener and runs nothing; through
every sequence of document-ready events without a main frame the listener
stays and the script is not run; through every sequence that has a main-frame
event the script is run exactly once more than without the `RunJS` call and
the registry is what it would be without that call, which is the registry of
before the call when the other listeners are callbacks of the application.
The token of the listener is new to the registry, whose entries are those that
`view.go` stores. -/
theorem runJS_runs_script_once (v : Nat) (script key : String) (mb : Blink)
    (es : List (RangeOrder × Nat))
    (hwf : View.documentReadyWellFormed v mb)
    (hfresh : (mb.mem v).onDocumentReadyCallbacks.get key = none) :
    (View.IsDocumentReady v mb = true →
      (View.RunJS v script key mb).log =
        mb.log ++ [.call "wkeRunJS" [.num (mb.mem v).Hwnd, .str script]] ∧
      (View.RunJS v script key mb).mem = mb.mem) ∧
    (View.IsDocumentReady v mb = false →
      ((View.RunJS v script key mb).mem v).onDocumentReadyCallbacks =
        (mb.mem v).onDocumentReadyCallbacks.set key (.runJS v script key) ∧
      (View.RunJS v script key mb).log = mb.log ∧
      ((∀ e ∈ es, View.IsMainFrame v e.2 mb = false) →
        ((View.documentReadyEvents v es (View.RunJS v script key mb)).mem
            v).onDocumentReadyCallbacks.entries =
          ((View.documentReadyEvents v es mb).mem v).onDocumentReadyCallbacks.entries ++
            [(key, .runJS v script key)] ∧
        (View.documentReadyEvents v es (View.RunJS v script key mb)).log.Perm
          (View.documentReadyEvents v es mb).log) ∧
      ((∃ e ∈ es, View.IsMainFrame v e.2 mb = true) →
        ((View.documentReadyEvents v es (View.RunJS v script key mb)).mem
            v).onDocumentReadyCallbacks =
          ((View.documentReadyEvents v es mb).mem v).onDocumentReadyCallbacks ∧
        (View.documentReadyEvents v es (View.RunJS v script key mb)).log.Perm
          (Effect.call "wkeRunJS" [.num (mb.mem v).Hwnd, .str script] ::
            (View.documentReadyEvents v es mb).log) ∧
        ((∀ e ∈ (mb.mem v).onDocumentReadyCallbacks.entries, ∃ id, e.2 = .app id) →
          ((View.documentReadyEvents v es (View.RunJS v script key mb)).mem
              v).onDocumentReadyCallbacks = (mb.mem v).onDocumentReadyCallbacks ∧
          (View.documentReadyEvents v es (View.RunJS v script key mb)).log.count
              (Effect.call "wkeRunJS" [.num (mb.mem v).Hwnd, .str script]) =
            mb.log.count (Effect.call "wkeRunJS" [.num (mb.mem v).Hwnd, .str script]) + 1))) := by
  constructor
  · intro hready
    simp [View.RunJS, hready, Blink.CallFunc, Blink.emit]
  · intro hready
    have hrun : View.RunJS v script key mb =
        View.OnDocumentReady v key (.runJS v script key) mb := by
      simp [View.RunJS, hready]
    have hreg : ((View.RunJS v script key mb).mem v).onDocumentReadyCallbacks =
        (mb.mem v).onDocumentReadyCallbacks.set key (.runJS v script key) := by
      rw [hrun]; simp [View.OnDocumentReady]
    have hlog : (View.RunJS v script key mb).log = mb.log := by rw [hrun]; rfl
    have heng : (View.RunJS v script key mb).engine = mb.engine := by rw [hrun]; rfl
    have hhwnd : ((View.RunJS v script key mb).mem v).Hwnd = (mb.mem v).Hwnd := by
      rw [hrun]; simp [View.OnDocumentReady]
    have hpend := documentReadyEvents_pending v script key mb.engine (mb.mem v).Hwnd es
      (View.RunJS v script key mb) mb heng rfl hhwnd rfl hwf hfresh
      (by rw [hreg, GoMap.entries_set_of_get_none _ _ _ hfresh]) (by rw [hlog])
    refine ⟨hreg, hlog, hpend.1, fun hex => ?_⟩
    obtain ⟨h1, h2⟩ := hpend.2 hex
    refine ⟨h1, h2, fun happ => ?_⟩
    obtain ⟨g1, g2⟩ := documentReadyEvents_app_only v es mb happ
    refine ⟨h1.trans g1, ?_⟩
    rw [h2.count_eq, List.count_cons_self, g2]

/-- C8, at a concrete state: the view at address 0 waits for its document with
an earlier deferred script and a callback of the application; three events
follow, the first of a frame that is not the main frame. -/
theorem runJS_runs_script_once_witness :
    (View.IsDocumentReady 0 Blink.sample = true →
      (View.RunJS 0 "go()" "r9" Blink.sample).log =
        Blink.sample.log ++ [.call "wkeRunJS" [.num (Blink.sample.mem 0).Hwnd, .str "go()"]] ∧
      (View.RunJS 0 "go()" "r9" Blink.sample).mem = Blink.sample.mem) ∧
    (View.IsDocumentReady 0 Blink.sample = false →
      ((View.RunJS 0 "go()" "r9" Blink.sample).mem 0).onDocumentReadyCallbacks =
        (Blink.sample.mem 0).onDocumentReadyCallbacks.set "r9" (.runJS 0 "go()" "r9") ∧
      (View.RunJS 0 "go()" "r9" Blink.sample).log = Blink.sample.log ∧
      ((∀ e ∈ Blink.sampleEvents, View.IsMainFrame 0 e.2 Blink.sample = false) →
        ((View.documentReadyEvents 0 Blink.sampleEvents (View.RunJS 0 "go()" "r9" Blink.sample)).mem
            0).onDocumentReadyCallbacks.entries =
          ((View.documentReadyEvents 0 Blink.sampleEvents Blink.sample).mem
              0).onDocumentReadyCallbacks.entries ++
            [("r9", .runJS 0 "go()" "r9")] ∧
        (View.documentReadyEvents 0 Blink.sampleEvents (View.RunJS 0 "go()" "r9"
            Blink.sample)).log.Perm
          (View.documentReadyEvents 0 Blink.sampleEvents Blink.sample).log) ∧
      ((∃ e ∈ Blink.sampleEvents, View.IsMainFrame 0 e.2 Blink.sample = true) →
        ((View.documentReadyEvents 0 Blink.sampleEvents (View.RunJS 0 "go()" "r9" Blink.sample)).mem
            0).onDocumentReadyCallbacks =
          ((View.documentReadyEvents 0 Blink.sampleEvents Blink.sample).mem
              0).onDocumentReadyCallbacks ∧
        (View.documentReadyEvents 0 Blink.sampleEvents (View.RunJS 0 "go()" "r9"
            Blink.sample)).log.Perm
          (Effect.call "wkeRunJS" [.num (Blink.sample.mem 0).Hwnd, .str "go()"] ::
            (View.documentReadyEvents 0 Blink.sampleEvents Blink.sample).log) ∧
        ((∀ e ∈ (Blink.sample.mem 0).onDocumentReadyCallbacks.entries, ∃ id, e.2 = .app id) →
          ((View.documentReadyEvents 0 Blink.sampleEvents (View.RunJS 0 "go()" "r9"
              Blink.sample)).mem
              0).onDocumentReadyCallbacks = (Blink.sample.mem 0).onDocumentReadyCallbacks ∧
          (View.documentReadyEvents 0 Blink.sampleEvents (View.RunJS 0 "go()" "r9"
              Blink.sample)).log.count
              (Effect.call "wkeRunJS" [.num (Blink.sample.mem 0).Hwnd, .str "go()"]) =
            Blink.sample.log.count (Effect.call "wkeRunJS" [.num (Blink.sample.mem 0).Hwnd, .str
                "go()"]) + 1))) :=
  runJS_runs_script_once 0 "go()" "r9" Blink.sample Blink.sampleEvents (by decide) (by decide)

/-! ## Boot scripts -/

theorem injectBootScripts_script_fold (acc : String) (bootScripts : List String) :
    bootScripts.foldl (fun script s => script ++ (s ++ ";\n")) acc =
      acc ++ bootScriptText bootScripts := by
  induction bootScripts generalizing acc with
  | nil => simp [bootScriptText]
  | cons s rest ih =>
    rw [List.foldl_cons, ih, bootScriptText, String.append_assoc, String.append_assoc]

theorem OnDidCreateScriptContextCallback.isApp_iff (cb : OnDidCreateScriptContextCallback) :
    cb.isApp = true ↔ ∃ id, cb = .app id := by
  cases cb <;> simp [OnDidCreateScriptContextCallback.isApp]

theorem OnDidCreateScriptContextCallback.invoke_eq (cb : OnDidCreateScriptContextCallback)
    (frame context : Nat) (exGroup worldId : Int) (mb : Blink) :
    cb.invoke frame context exGroup worldId mb =
      mb.emit (cb.effect mb.mem frame context exGroup worldId) := by
  cases cb <;> rfl

theorem scriptContext_fold (frame context : Nat) (exGroup worldId : Int)
    (l : List (String × OnDidCreateScriptContextCallback)) (s : Blink) :
    (l.foldl (fun s e => e.2.invoke frame context exGroup worldId s) s).mem = s.mem ∧
      (l.foldl (fun s e => e.2.invoke frame context exGroup worldId s) s).log =
        s.log ++ l.map (fun e => e.2.effect s.mem frame context exGroup worldId) := by
  induction l generalizing s with
  | nil => simp
  | cons e rest ih =>
    obtain ⟨h1, h2⟩ := ih (e.2.invoke frame context exGroup worldId s)
    rw [OnDidCreateScriptContextCallback.invoke_eq] at h1 h2
    rw [List.foldl_cons, OnDidCreateScriptContextCallback.invoke_eq]
    exact ⟨h1, by rw [h2]; simp⟩

theorem scriptContext_handler_spec (ρ : RangeOrder) (v : Nat) (frame context : Nat)
    (exGroup worldId : Int) (mb : Blink) :
    (View.registerOnDidCreateScriptContext.handler ρ v frame context exGroup worldId mb).1.mem
        = mb.mem ∧
      (View.registerOnDidCreateScriptContext.handler ρ v frame context exGroup worldId mb).1.log =
        mb.log ++ (ρ.pick (mb.mem v).onDidCreateScriptContextCallbacks.entries).map
          (fun e => e.2.effect mb.mem frame context exGroup worldId) := by
  unfold View.registerOnDidCreateScriptContext.handler View.registerOnDidCreateScriptContext.range
  rw [goRange_of_stable ρ (fun mb : Blink => (mb.mem v).onDidCreateScriptContextCallbacks)
    (fun _ callback mb => callback.invoke frame context exGroup worldId mb)
    (fun _ x s => by cases x <;> rfl)]
  exact scriptContext_fold frame context exGroup worldId _ mb

theorem bootScripts_calls_of_registry (v : Nat) (script : String) (key : String)
    (frame context : Nat) (exGroup worldId : Int) (mem : Nat → View)
    (R : GoMap String OnDidCreateScriptContextCallback)
    (l : List (String × OnDidCreateScriptContextCallback))
    (hl : l.Perm (R.set key (.bootScripts v script)).entries)
    (happ : ∀ e ∈ R.entries, ∃ id, e.2 = .app id) :
    (l.map (fun e => e.2.effect mem frame context exGroup worldId)).filter Effect.isCall =
      [Effect.call "wkeRunJS" [.num (mem v).Hwnd, .str script]] := by
  apply List.perm_singleton.mp
  refine ((hl.map _).filter _).trans ?_
  simp only [GoMap.set, List.map_append, List.filter_append, List.map_cons, List.map_nil]
  have hnil : List.filter Effect.isCall ((R.entries.filter (fun e => decide (e.1 ≠ key))).map
      (fun e => e.2.effect mem frame context exGroup worldId)) = [] := by
    rw [List.filter_eq_nil_iff]
    intro x hx
    obtain ⟨e, he, rfl⟩ := List.mem_map.mp hx
    obtain ⟨id, hid⟩ := happ e (List.mem_filter.mp he).1
    simp [hid, OnDidCreateScriptContextCallback.effect, Effect.isCall]
  rw [hnil]
  simp [OnDidCreateScriptContextCallback.effect, Effect.isCall]

theorem scriptContextEvents_calls (v : Nat) (script : String) (key : String)
    (es : List ScriptContextEvent) (mb : Blink) (R : GoMap String OnDidCreateScriptContextCallback)
    (hreg : (mb.mem v).onDidCreateScriptContextCallbacks = R.set key (.bootScripts v script))
    (happ : ∀ e ∈ R.entries, ∃ id, e.2 = .app id) :
    (View.scriptContextEvents v es mb).log.filter Effect.isCall =
      mb.log.filter Effect.isCall ++
        List.replicate es.length (Effect.call "wkeRunJS" [.num (mb.mem v).Hwnd, .str script]) := by
  induction es generalizing mb with
  | nil => simp [View.scriptContextEvents]
  | cons e es ih =>
    obtain ⟨h1, h2⟩ := scriptContext_handler_spec e.order v e.frame e.context e.exGroup e.worldId
      { mb with bootScripts := e.bootScripts }
    simp only [] at h1 h2
    have hcalls := bootScripts_calls_of_registry v script key e.frame e.context e.exGroup
      e.worldId mb.mem R (e.order.pick (mb.mem v).onDidCreateScriptContextCallbacks.entries)
      (by rw [← hreg]; exact e.order.perm _) happ
    simp only [View.scriptContextEvents]
    rw [ih _ (by rw [h1]; exact hreg), h1, h2, List.filter_append, hcalls, List.length_cons,
      List.replicate_succ, List.append_assoc]
    rfl

/-- C9: the script that `injectBootScripts` hands to its callback is the boot
scripts of that moment, each followed by ";\n", in their order, and empty when
there are none; the callback is registered under the token drawn, and through
every sequence of script-context-created events of the view, whatever
`mb.bootScripts` has become by then, every event runs exactly that script
once: `k` events run it `k` times. The other callbacks of the registry are
callbacks of the application, as they are when the view is created. -/
theorem bootScripts_rerun_on_every_context (v : Nat) (key : String) (mb : Blink)
    (es : List ScriptContextEvent)
    (happ : ∀ e ∈ (mb.mem v).onDidCreateScriptContextCallbacks.entries, e.2.isApp = true) :
    View.injectBootScripts.script mb.bootScripts = bootScriptText mb.bootScripts ∧
      View.injectBootScripts.script [] = "" ∧
      ((View.injectBootScripts v key mb).mem v).onDidCreateScriptContextCallbacks.get key =
        some (.bootScripts v (bootScriptText mb.bootScripts)) ∧
      (View.scriptContextEvents v es (View.injectBootScripts v key mb)).log.filter Effect.isCall =
        mb.log.filter Effect.isCall ++
          List.replicate es.length
            (Effect.call "wkeRunJS" [.num (mb.mem v).Hwnd, .str (bootScriptText mb.bootScripts)]) := by
  have hscript : View.injectBootScripts.script mb.bootScripts = bootScriptText mb.bootScripts := by
    rw [View.injectBootScripts.script, injectBootScripts_script_fold]
    simp
  have hreg : ((View.injectBootScripts v key mb).mem v).onDidCreateScriptContextCallbacks =
      (mb.mem v).onDidCreateScriptContextCallbacks.set key
        (.bootScripts v (bootScriptText mb.bootScripts)) := by
    simp [View.injectBootScripts, View.OnDidCreateScriptContext, hscript]
  refine ⟨hscript, rfl, ?_, ?_⟩
  · rw [hreg]; exact GoMap.get_set_same _ _ _
  · have := scriptContextEvents_calls v (bootScriptText mb.bootScripts) key es
      (View.injectBootScripts v key mb) _ hreg
      (fun e he => (OnDidCreateScriptContextCallback.isApp_iff e.2).mp (happ e he))
    rw [this]
    simp [View.injectBootScripts, View.OnDidCreateScriptContext, Blink.modify]

/-- C9, at a concrete state: two boot scripts, a callback of the application
already registered, and two events, by the second of which `mb.bootScripts`
has changed. -/
theorem bootScripts_rerun_on_every_context_witness :
    View.injectBootScripts.script Blink.booting.bootScripts =
        bootScriptText Blink.booting.bootScripts ∧
      View.injectBootScripts.script [] = "" ∧
      ((View.injectBootScripts 0 "b9" Blink.booting).mem 0).onDidCreateScriptContextCallbacks.get
          "b9" = some (.bootScripts 0 (bootScriptText Blink.booting.bootScripts)) ∧
      (View.scriptContextEvents 0 Blink.bootingEvents
          (View.injectBootScripts 0 "b9" Blink.booting)).log.filter Effect.isCall =
        Blink.booting.log.filter Effect.isCall ++
          List.replicate Blink.bootingEvents.length
            (Effect.call "wkeRunJS"
              [.num (Blink.booting.mem 0).Hwnd, .str (bootScriptText Blink.booting.bootScripts)]) :=
  bootScripts_rerun_on_every_context 0 "b9" Blink.booting Blink.bootingEvents (by decide)

/-! ## Delegated DOM events -/

theorem digitValue_digitChar (d : Nat) (h : d < 10) : digitValue (digitChar d) = some d := by
  interval_cases d <;> decide

theorem digitChar_not_sign (d : Nat) (h : d < 10) : ¬ (digitChar d = '-' ∨ digitChar d = '+') := by
  interval_cases d <;> decide

theorem parseDigits_formatUintCore (fuel n : Nat) (acc : List Char) (h : n < fuel) :
    ∃ k, ∀ a, parseDigits (formatUintCore fuel n acc) a = parseDigits acc (a * 10 ^ k + n) := by
  induction fuel generalizing n acc with
  | zero => omega
  | succ fuel ih =>
    by_cases hn : n < 10
    · refine ⟨1, fun a => ?_⟩
      simp only [formatUintCore, hn, ↓reduceIte, parseDigits, digitValue_digitChar n hn, pow_one]
    · obtain ⟨k, hk⟩ := ih (n / 10) (digitChar (n % 10) :: acc) (by omega)
      refine ⟨k + 1, fun a => ?_⟩
      simp only [formatUintCore, hn, ↓reduceIte, hk, parseDigits,
        digitValue_digitChar (n % 10) (Nat.mod_lt _ (by omega))]
      congr 1
      rw [pow_succ]
      have := Nat.div_add_mod n 10
      nlinarith [this]

theorem formatUintCore_head (fuel n : Nat) (acc : List Char)
    (hacc : ∃ d rest, d < 10 ∧ acc = digitChar d :: rest) :
    ∃ d rest, d < 10 ∧ formatUintCore fuel n acc = digitChar d :: rest := by
  induction fuel generalizing n acc with
  | zero => exact hacc
  | succ fuel ih =>
    by_cases hn : n < 10
    · exact ⟨n, acc, hn, by simp [formatUintCore, hn]⟩
    · simp only [formatUintCore, hn, ↓reduceIte]
      exact ih _ _ ⟨n % 10, acc, Nat.mod_lt _ (by omega), rfl⟩

theorem formatUint_head (n : Nat) :
    ∃ d rest, d < 10 ∧ (FormatUint n).data = digitChar d :: rest := by
  by_cases hn : n < 10
  · exact ⟨n, [], hn, by simp [FormatUint, formatUintCore, hn]⟩
  · simp only [FormatUint, formatUintCore, hn, ↓reduceIte]
    exact formatUintCore_head _ _ _ ⟨n % 10, [], Nat.mod_lt _ (by omega), rfl⟩

theorem parseDigits_formatUint (n : Nat) : parseDigits (FormatUint n).data 0 = some n := by
  obtain ⟨k, hk⟩ := parseDigits_formatUintCore (n + 1) n [] (by omega)
  simp only [FormatUint, hk, parseDigits, Nat.zero_mul, Nat.zero_add]

theorem atoi_formatUint (intSize n : Nat) (h : n < 2 ^ (intSize - 1)) :
    Atoi intSize (FormatUint n) = some (n : Int) := by
  obtain ⟨d, rest, hd, hdata⟩ := formatUint_head n
  have hparse := parseDigits_formatUint n
  have hsign := digitChar_not_sign d hd
  have hneg : ¬ digitChar d = '-' := fun hc => hsign (Or.inl hc)
  have hplus : ¬ digitChar d = '+' := fun hc => hsign (Or.inr hc)
  rw [hdata] at hparse
  simp [Atoi, hdata, hparse, hneg, hplus, h]

theorem atoi_formatUint_of_large (intSize n : Nat) (h : 2 ^ (intSize - 1) ≤ n) :
    Atoi intSize (FormatUint n) = none := by
  obtain ⟨d, rest, hd, hdata⟩ := formatUint_head n
  have hparse := parseDigits_formatUint n
  have hsign := digitChar_not_sign d hd
  have hneg : ¬ digitChar d = '-' := fun hc => hsign (Or.inl hc)
  have hlt : ¬ n < 2 ^ (intSize - 1) := by omega
  have hplus : ¬ digitChar d = '+' := fun hc => hsign (Or.inr hc)
  rw [hdata] at hparse
  simp [Atoi, hdata, hparse, hneg, hplus, hlt]

theorem wkeHandle_ofInt_natCast (intSize n : Nat) (h : n < 2 ^ (intSize - 1)) :
    WkeHandle.ofInt intSize (n : Int) = n := by
  have hle : 2 ^ (intSize - 1) ≤ 2 ^ intSize := Nat.pow_le_pow_right (by omega) (by omega)
  have hlt : (n : Int) < 2 ^ intSize := by exact_mod_cast (lt_of_lt_of_le h hle)
  rw [WkeHandle.ofInt, Int.emod_eq_of_lt (by omega) hlt, Int.toNat_natCast]

theorem eventKey_injective (s₁ e₁ s₂ e₂ : String) (h₁ : noSpace e₁) (h₂ : noSpace e₂)
    (h : s₁ ++ " " ++ e₁ = s₂ ++ " " ++ e₂) : s₁ = s₂ ∧ e₁ = e₂ := by
  have hd : s₁.data ++ (' ' :: e₁.data) = s₂.data ++ (' ' :: e₂.data) := by
    have := congrArg String.data h
    simpa [String.data_append] using this
  rcases List.append_eq_append_iff.mp hd with ⟨a, ha, hb⟩ | ⟨c, hc, hb⟩
  · cases a with
    | nil =>
      simp only [List.append_nil, List.nil_append, List.cons.injEq, true_and] at ha hb
      exact ⟨String.ext ha.symm, String.ext hb⟩
    | cons x a =>
      simp only [List.cons_append, List.cons.injEq] at hb
      exact absurd (by rw [hb.2]; simp) h₁
  · cases c with
    | nil =>
      simp only [List.append_nil, List.nil_append, List.cons.injEq, true_and] at hc hb
      exact ⟨String.ext hc, String.ext hb.symm⟩
    | cons x c =>
      simp only [List.cons_append, List.cons.injEq] at hb
      exact absurd (by rw [hb.2]; simp) h₂

theorem runJS_frame (v : Nat) (script key : String) (mb : Blink) :
    (View.RunJS v script key mb).views = mb.views ∧
      ((View.RunJS v script key mb).mem v).Hwnd = (mb.mem v).Hwnd ∧
      ((View.RunJS v script key mb).mem v).eventCallbacks = (mb.mem v).eventCallbacks := by
  by_cases h : View.IsDocumentReady v mb = true
  · simp [View.RunJS, h, Blink.CallFunc, Blink.emit]
  · simp [View.RunJS, h, View.OnDocumentReady, Blink.modify]

theorem handleChannel_frame (mb : Blink) (name : String) :
    (mb.handleChannel name).views = mb.views ∧ (mb.handleChannel name).mem = mb.mem := by
  unfold Blink.handleChannel
  split <;> exact ⟨rfl, rfl⟩

theorem addEventListener_frame (jsIPC : String) (v : Nat) (selector eventType : String)
    (callback : AppCallback) (preScripts : List String) (key : String) (mb : Blink) :
    (View.AddEventListener jsIPC v selector eventType callback preScripts key mb).views
        = mb.views ∧
      ((View.AddEventListener jsIPC v selector eventType callback preScripts key mb).mem v).Hwnd
        = (mb.mem v).Hwnd ∧
      ((View.AddEventListener jsIPC v selector eventType callback preScripts key mb).mem
          v).eventCallbacks =
        (mb.mem v).eventCallbacks.set (selector ++ " " ++ eventType) callback := by
  unfold View.AddEventListener
  simp only []
  obtain ⟨h1, h2, h3⟩ := runJS_frame v
    (View.AddEventListener.script (FormatUint (mb.mem v).Hwnd) jsIPC selector eventType
      (String.intercalate ";" preScripts)) key
    ((mb.handleChannel "addEventListener").modify v fun view =>
        { view with
          eventCallbacks := view.eventCallbacks.set (selector ++ " " ++ eventType) callback })
  obtain ⟨c1, c2⟩ := handleChannel_frame mb "addEventListener"
  rw [h1, h2, h3]
  simp only [Blink.modify_mem_same, c2, and_self, and_true]
  exact c1

theorem removeEventListener_frame (v : Nat) (selector eventType : String) (mb : Blink) :
    (View.RemoveEventListener v selector eventType mb).views = mb.views ∧
      ((View.RemoveEventListener v selector eventType mb).mem v).Hwnd = (mb.mem v).Hwnd ∧
      ((View.RemoveEventListener v selector eventType mb).mem v).eventCallbacks =
        (mb.mem v).eventCallbacks.delete (selector ++ " " ++ eventType) := by
  simp [View.RemoveEventListener, Blink.modify]

theorem eventOps_frame (jsIPC : String) (v : Nat) (key : String) (ops : List EventOp)
    (mb : Blink) :
    (EventOp.runAll jsIPC v ops mb).views = mb.views ∧
      ((EventOp.runAll jsIPC v ops mb).mem v).Hwnd = (mb.mem v).Hwnd ∧
      ((EventOp.runAll jsIPC v ops mb).mem v).eventCallbacks.get key =
        EventOp.latestByKey key ((mb.mem v).eventCallbacks.get key) ops := by
  induction ops generalizing mb with
  | nil => exact ⟨rfl, rfl, rfl⟩
  | cons op ops ih =>
    obtain ⟨i1, i2, i3⟩ := ih (op.run jsIPC v mb)
    simp only [EventOp.runAll, List.foldl_cons] at i1 i2 i3 ⊢
    cases op with
    | add selector eventType callback preScripts token =>
      obtain ⟨a1, a2, a3⟩ := addEventListener_frame jsIPC v selector eventType callback
        preScripts token mb
      simp only [EventOp.run] at i1 i2 i3 ⊢
      refine ⟨i1.trans a1, i2.trans a2, ?_⟩
      rw [i3, a3, EventOp.latestByKey]
      by_cases hsame : selector ++ " " ++ eventType = key
      · simp only [hsame, ↓reduceIte, GoMap.get_set_same]
      · simp only [hsame, ↓reduceIte, GoMap.get_set_ne _ _ (Ne.symm hsame)]
    | remove selector eventType =>
      obtain ⟨a1, a2, a3⟩ := removeEventListener_frame v selector eventType mb
      simp only [EventOp.run] at i1 i2 i3 ⊢
      refine ⟨i1.trans a1, i2.trans a2, ?_⟩
      rw [i3, a3, EventOp.latestByKey]
      by_cases hsame : selector ++ " " ++ eventType = key
      · simp only [hsame, ↓reduceIte, GoMap.get_delete_same]
      · simp only [hsame, ↓reduceIte, GoMap.get_delete_ne _ (Ne.symm hsame)]

theorem latestByKey_eq_latest (selector eventType : String) (hev : noSpace eventType)
    (ops : List EventOp) (hops : ∀ op ∈ ops, noSpace op.eventType)
    (before : Option AppCallback) :
    EventOp.latestByKey (selector ++ " " ++ eventType) before ops =
      EventOp.latest selector eventType before ops := by
  induction ops generalizing before with
  | nil => rfl
  | cons op ops ih =>
    have hop := hops op (List.mem_cons_self _ _)
    have hrest : ∀ o ∈ ops, noSpace o.eventType := fun o ho => hops o (List.mem_cons_of_mem _ ho)
    cases op with
    | add selector' eventType' callback preScripts token =>
      have hiff : selector' ++ " " ++ eventType' = selector ++ " " ++ eventType ↔
          (selector' = selector ∧ eventType' = eventType) :=
        ⟨eventKey_injective _ _ _ _ hop hev, fun h => by rw [h.1, h.2]⟩
      simp only [EventOp.latestByKey, EventOp.latest, hiff, ih hrest]
    | remove selector' eventType' =>
      have hiff : selector' ++ " " ++ eventType' = selector ++ " " ++ eventType ↔
          (selector' = selector ∧ eventType' = eventType) :=
        ⟨eventKey_injective _ _ _ _ hop hev, fun h => by rw [h.1, h.2]⟩
      simp only [EventOp.latestByKey, EventOp.latest, hiff, ih hrest]

theorem jsStringLiteral.loop_of_plain (l : List Char)
    (h : ∀ c ∈ l, c ≠ jsQuote ∧ c ≠ jsBackslash ∧ jsBreak c = false) :
    jsStringLiteral.loop l = some l := by
  induction l with
  | nil => rfl
  | cons c l ih =>
    obtain ⟨hq, hb, hl⟩ := h c (List.mem_cons_self _ _)
    have ih := ih fun x hx => h x (List.mem_cons_of_mem _ hx)
    cases l with
    | nil => simp [jsStringLiteral.loop, hq, hb, hl]
    | cons e rest => simp [jsStringLiteral.loop, hq, hb, hl, ih]

theorem jsStringLiteral_of_plain (s : String) (h : jsPlain s) : jsStringLiteral s = some s := by
  simp [jsStringLiteral, jsStringLiteral.loop_of_plain s.data h]

theorem digitChar_plain (d : Nat) (h : d < 10) :
    digitChar d ≠ jsQuote ∧ digitChar d ≠ jsBackslash ∧ jsBreak (digitChar d) = false := by
  interval_cases d <;> decide

theorem formatUintCore_plain (fuel n : Nat) (acc : List Char)
    (hacc : ∀ c ∈ acc, c ≠ jsQuote ∧ c ≠ jsBackslash ∧ jsBreak c = false) :
    ∀ c ∈ formatUintCore fuel n acc,
      c ≠ jsQuote ∧ c ≠ jsBackslash ∧ jsBreak c = false := by
  induction fuel generalizing n acc with
  | zero => exact hacc
  | succ fuel ih =>
    by_cases hn : n < 10
    · simp only [formatUintCore, hn, ↓reduceIte, List.mem_cons]
      rintro c (rfl | hc)
      · exact digitChar_plain n hn
      · exact hacc c hc
    · simp only [formatUintCore, hn, ↓reduceIte]
      refine ih _ _ fun c hc => ?_
      rcases List.mem_cons.mp hc with rfl | hc
      · exact digitChar_plain _ (Nat.mod_lt _ (by omega))
      · exact hacc c hc

theorem jsPlain_formatUint (n : Nat) : jsPlain (FormatUint n) :=
  formatUintCore_plain (n + 1) n [] (fun _ hc => absurd hc (List.not_mem_nil _))

theorem message_viewHandle (jsIPC : String) (v : Nat) (selector eventType : String) (mb : Blink)
    (m : String × String × String)
    (h : View.AddEventListener.message jsIPC v selector eventType mb = some m) :
    m.1 = FormatUint (mb.mem v).Hwnd := by
  unfold View.AddEventListener.message at h
  rw [jsStringLiteral_of_plain _ (jsPlain_formatUint _)] at h
  split at h
  · rename_i h1 _ _ _
    simp only [Option.some.injEq] at h1 h
    rw [← h, ← h1]
  · cases h

theorem handler_spec (jsIPC : String) (intSize : Nat) (v : Nat) (mb : Blink)
    (ops : List EventOp) (selector eventType : String)
    (hreg : mb.GetViewByHandle (mb.mem v).Hwnd = some v)
    (hsize : (mb.mem v).Hwnd < 2 ^ (intSize - 1)) :
    View.AddEventListener.handler intSize (FormatUint (mb.mem v).Hwnd) selector eventType
        (EventOp.runAll jsIPC v ops mb) =
      (match EventOp.latestByKey (selector ++ " " ++ eventType)
          ((mb.mem v).eventCallbacks.get (selector ++ " " ++ eventType)) ops with
        | some callback => (EventOp.runAll jsIPC v ops mb).emit (.callback callback.id [])
        | none => EventOp.runAll jsIPC v ops mb) := by
  obtain ⟨h1, _, h3⟩ := eventOps_frame jsIPC v (selector ++ " " ++ eventType) ops mb
  simp only [View.AddEventListener.handler,
    atoi_formatUint intSize _ hsize, wkeHandle_ofInt_natCast intSize _ hsize,
    Blink.GetViewByHandle, h1]
  rw [Blink.GetViewByHandle] at hreg
  simp only [hreg, h3]
  cases EventOp.latestByKey (selector ++ " " ++ eventType)
    ((mb.mem v).eventCallbacks.get (selector ++ " " ++ eventType)) ops <;> rfl

/-- C10 (counterexample): on a registered view with the handle 100, the pairs
("a b", "c") and ("a", "b c") share the slot "a b c", so that the message of
the first pair runs the callback passed for the second; for a view with the
handle 2^63, on a platform with an `int` of 64 bits, `Atoi` rejects the
decimal text of the handle and the message runs no callback although one was
added; and for the selector `div\.x` the script sends the selector `div.x`,
the value of its literal, under which no callback was stored, so that the
message runs no callback although one was added for the pair. -/
theorem delegated_event_misrouted :
    View.AddEventListener.message "ipc" 0 "a b" "c"
          (EventOp.runAll "ipc" 0 [.add "a b" "c" ⟨1⟩ [] "r1", .add "a" "b c" ⟨2⟩ [] "r2"]
            (View.addToPool 0 "k0" Blink.fresh)) = some (FormatUint 100, "a b", "c") ∧
      (View.AddEventListener.handler 64 (FormatUint 100) "a b" "c"
          (EventOp.runAll "ipc" 0 [.add "a b" "c" ⟨1⟩ [] "r1", .add "a" "b c" ⟨2⟩ [] "r2"]
            (View.addToPool 0 "k0" Blink.fresh))).log =
        (EventOp.runAll "ipc" 0 [.add "a b" "c" ⟨1⟩ [] "r1", .add "a" "b c" ⟨2⟩ [] "r2"]
          (View.addToPool 0 "k0" Blink.fresh)).log ++ [Effect.callback 2 []] ∧
      EventOp.latest "a b" "c" none [.add "a b" "c" ⟨1⟩ [] "r1", .add "a" "b c" ⟨2⟩ [] "r2"]
        = some ⟨1⟩ ∧
      View.AddEventListener.message "ipc" 0 ".x" "click"
          (EventOp.runAll "ipc" 0 [.add ".x" "click" ⟨1⟩ [] "r1"]
            (View.addToPool 0 "k0" Blink.highHandle)) =
        some (FormatUint (2 ^ 63), ".x", "click") ∧
      (View.AddEventListener.handler 64 (FormatUint (2 ^ 63)) ".x" "click"
          (EventOp.runAll "ipc" 0 [.add ".x" "click" ⟨1⟩ [] "r1"]
            (View.addToPool 0 "k0" Blink.highHandle))).log =
        (EventOp.runAll "ipc" 0 [.add ".x" "click" ⟨1⟩ [] "r1"]
          (View.addToPool 0 "k0" Blink.highHandle)).log ∧
      (View.addToPool 0 "k0" Blink.highHandle).GetViewByHandle (2 ^ 63) = some 0 ∧
      EventOp.latest ".x" "click" none [.add ".x" "click" ⟨1⟩ [] "r1"] = some ⟨1⟩ ∧
      View.AddEventListener.message "ipc" 0 "div\x5c.x" "click"
          (EventOp.runAll "ipc" 0 [.add "div\x5c.x" "click" ⟨1⟩ [] "r1"]
            (View.addToPool 0 "k0" Blink.fresh)) = some (FormatUint 100, "div.x", "click") ∧
      (View.AddEventListener.handler 64 (FormatUint 100) "div.x" "click"
          (EventOp.runAll "ipc" 0 [.add "div\x5c.x" "click" ⟨1⟩ [] "r1"]
            (View.addToPool 0 "k0" Blink.fresh))).log =
        (EventOp.runAll "ipc" 0 [.add "div\x5c.x" "click" ⟨1⟩ [] "r1"]
          (View.addToPool 0 "k0" Blink.fresh)).log ∧
      EventOp.latest "div\x5c.x" "click" none [.add "div\x5c.x" "click" ⟨1⟩ [] "r1"]
        = some ⟨1⟩ := by
  decide

/-- C10 (amended): for a view registered under its handle, with a handle
below 2^(intSize-1), and for a selector and an event type without quote,
backslash, line terminator or NUL (as `JS_IPC` is), the injected script sends
the decimal text of the handle, the selector and the event type, and this
message makes the channel handler run exactly the callback most recently
stored under the text `selector + " " + eventType` and not deleted since, and
nothing if there is none; when no event type has a space, that is the
callback most recently passed to `AddEventListener` for this very pair and not
removed by `RemoveEventListener`. Whatever the selector and the event type,
a message that the script sends is routed by the handle of the view and the
text that it carries. The decimal text of every such handle decodes back to
the handle, and two pairs whose event types have no space share a slot only
if they are the same pair. -/
theorem delegated_event_routing (jsIPC : String) (intSize : Nat) (v : Nat) (mb : Blink)
    (ops : List EventOp) (selector eventType : String)
    (hreg : mb.GetViewByHandle (mb.mem v).Hwnd = some v)
    (hsize : (mb.mem v).Hwnd < 2 ^ (intSize - 1))
    (hipc : jsPlain jsIPC) (hsel : jsPlain selector) (hev : jsPlain eventType) :
    View.AddEventListener.message jsIPC v selector eventType (EventOp.runAll jsIPC v ops mb) =
        some (FormatUint (mb.mem v).Hwnd, selector, eventType) ∧
      View.AddEventListener.handler intSize (FormatUint (mb.mem v).Hwnd) selector eventType
          (EventOp.runAll jsIPC v ops mb) =
        (match EventOp.latestByKey (selector ++ " " ++ eventType)
            ((mb.mem v).eventCallbacks.get (selector ++ " " ++ eventType)) ops with
          | some callback => (EventOp.runAll jsIPC v ops mb).emit (.callback callback.id [])
          | none => EventOp.runAll jsIPC v ops mb) ∧
      (noSpace eventType → (∀ op ∈ ops, noSpace op.eventType) →
        EventOp.latestByKey (selector ++ " " ++ eventType)
            ((mb.mem v).eventCallbacks.get (selector ++ " " ++ eventType)) ops =
          EventOp.latest selector eventType
            ((mb.mem v).eventCallbacks.get (selector ++ " " ++ eventType)) ops) ∧
      (∀ (selector₁ eventType₁ : String) (m : String × String × String),
        View.AddEventListener.message jsIPC v selector₁ eventType₁
            (EventOp.runAll jsIPC v ops mb) = some m →
          View.AddEventListener.handler intSize m.1 m.2.1 m.2.2 (EventOp.runAll jsIPC v ops mb) =
            (match EventOp.latestByKey (m.2.1 ++ " " ++ m.2.2)
                ((mb.mem v).eventCallbacks.get (m.2.1 ++ " " ++ m.2.2)) ops with
              | some callback => (EventOp.runAll jsIPC v ops mb).emit (.callback callback.id [])
              | none => EventOp.runAll jsIPC v ops mb)) ∧
      (∀ h, h < 2 ^ (intSize - 1) →
        (Atoi intSize (FormatUint h)).map (WkeHandle.ofInt intSize) = some h) ∧
      (∀ s₁ e₁ s₂ e₂, noSpace e₁ → noSpace e₂ →
        s₁ ++ " " ++ e₁ = s₂ ++ " " ++ e₂ → s₁ = s₂ ∧ e₁ = e₂) := by
  obtain ⟨_, h2, _⟩ := eventOps_frame jsIPC v (selector ++ " " ++ eventType) ops mb
  refine ⟨?_, handler_spec jsIPC intSize v mb ops selector eventType hreg hsize,
    fun hev hops => latestByKey_eq_latest selector eventType hev ops hops _, ?_, ?_,
    fun s₁ e₁ s₂ e₂ => eventKey_injective s₁ e₁ s₂ e₂⟩
  · simp only [View.AddEventListener.message, h2,
      jsStringLiteral_of_plain _ (jsPlain_formatUint _), jsStringLiteral_of_plain _ hipc,
      jsStringLiteral_of_plain _ hsel, jsStringLiteral_of_plain _ hev]
  · intro selector₁ eventType₁ m hm
    rw [message_viewHandle jsIPC v selector₁ eventType₁ _ m hm, h2]
    exact handler_spec jsIPC intSize v mb ops m.2.1 m.2.2 hreg hsize
  · intro h hh
    rw [atoi_formatUint intSize h hh, Option.map_some', wkeHandle_ofInt_natCast intSize h hh]

/-- C10 (amended), at a concrete sequence of calls on a registered view with
handle 100 and an `int` of 32 bits. -/
theorem delegated_event_routing_witness :
    View.AddEventListener.message "ipc" 0 ".mb-btn-min" "click"
          (EventOp.runAll "ipc" 0 Blink.sampleEventOps (View.addToPool 0 "k0" Blink.fresh)) =
        some (FormatUint ((View.addToPool 0 "k0" Blink.fresh).mem 0).Hwnd, ".mb-btn-min",
          "click") ∧
      View.AddEventListener.handler 32
          (FormatUint ((View.addToPool 0 "k0" Blink.fresh).mem 0).Hwnd) ".mb-btn-min" "click"
          (EventOp.runAll "ipc" 0 Blink.sampleEventOps (View.addToPool 0 "k0" Blink.fresh)) =
        (match EventOp.latestByKey (".mb-btn-min" ++ " " ++ "click")
            (((View.addToPool 0 "k0" Blink.fresh).mem 0).eventCallbacks.get
              (".mb-btn-min" ++ " " ++ "click")) Blink.sampleEventOps with
          | some callback =>
            (EventOp.runAll "ipc" 0 Blink.sampleEventOps
              (View.addToPool 0 "k0" Blink.fresh)).emit (.callback callback.id [])
          | none => EventOp.runAll "ipc" 0 Blink.sampleEventOps
              (View.addToPool 0 "k0" Blink.fresh)) ∧
      (noSpace "click" → (∀ op ∈ Blink.sampleEventOps, noSpace op.eventType) →
        EventOp.latestByKey (".mb-btn-min" ++ " " ++ "click")
            (((View.addToPool 0 "k0" Blink.fresh).mem 0).eventCallbacks.get
              (".mb-btn-min" ++ " " ++ "click")) Blink.sampleEventOps =
          EventOp.latest ".mb-btn-min" "click"
            (((View.addToPool 0 "k0" Blink.fresh).mem 0).eventCallbacks.get
              (".mb-btn-min" ++ " " ++ "click")) Blink.sampleEventOps) ∧
      (∀ (selector₁ eventType₁ : String) (m : String × String × String),
        View.AddEventListener.message "ipc" 0 selector₁ eventType₁
            (EventOp.runAll "ipc" 0 Blink.sampleEventOps (View.addToPool 0 "k0" Blink.fresh)) =
          some m →
          View.AddEventListener.handler 32 m.1 m.2.1 m.2.2
              (EventOp.runAll "ipc" 0 Blink.sampleEventOps (View.addToPool 0 "k0" Blink.fresh)) =
            (match EventOp.latestByKey (m.2.1 ++ " " ++ m.2.2)
                (((View.addToPool 0 "k0" Blink.fresh).mem 0).eventCallbacks.get
                  (m.2.1 ++ " " ++ m.2.2)) Blink.sampleEventOps with
              | some callback =>
                (EventOp.runAll "ipc" 0 Blink.sampleEventOps
                  (View.addToPool 0 "k0" Blink.fresh)).emit (.callback callback.id [])
              | none => EventOp.runAll "ipc" 0 Blink.sampleEventOps
                  (View.addToPool 0 "k0" Blink.fresh))) ∧
      (∀ h, h < 2 ^ (32 - 1) → (Atoi 32 (FormatUint h)).map (WkeHandle.ofInt 32) = some h) ∧
      (∀ s₁ e₁ s₂ e₂, noSpace e₁ → noSpace e₂ →
        s₁ ++ " " ++ e₁ = s₂ ++ " " ++ e₂ → s₁ = s₂ ∧ e₁ = e₂) :=
  delegated_event_routing "ipc" 32 0 (View.addToPool 0 "k0" Blink.fresh) Blink.sampleEventOps
    ".mb-btn-min" "click" (by decide) (by decide) (by decide) (by decide) (by decide)

/-! ## Unused file paths -/

theorem filepath.Ext.loop_suffix (isPathSeparator : Char → Bool) (before after : List Char) :
    ∃ pre, before.reverse ++ after = pre ++ filepath.Ext.loop isPathSeparator before after := by
  induction before generalizing after with
  | nil => exact ⟨after, by simp [filepath.Ext.loop]⟩
  | cons c before ih =>
    by_cases hsep : isPathSeparator c = true
    · exact ⟨(c :: before).reverse ++ after, by simp [filepath.Ext.loop, hsep]⟩
    · by_cases hdot : c = '.'
      · subst hdot
        exact ⟨before.reverse, by simp [filepath.Ext.loop, hsep]⟩
      · obtain ⟨pre, hpre⟩ := ih (c :: after)
        refine ⟨pre, ?_⟩
        simp only [filepath.Ext.loop, hsep, hdot, Bool.false_eq_true, ↓reduceIte, ← hpre,
          List.reverse_cons, List.append_assoc, List.singleton_append]

theorem baseWithoutExt_append_ext (lib : PathLib) (path : String) :
    baseWithoutExt lib path ++ filepath.Ext lib (lib.Base path) = lib.Base path := by
  obtain ⟨pre, hpre⟩ := filepath.Ext.loop_suffix lib.IsPathSeparator (lib.Base path).data.reverse []
  simp only [List.reverse_reverse, List.append_nil] at hpre
  apply String.ext
  simp only [baseWithoutExt, filepath.Ext, String.data_append]
  generalize filepath.Ext.loop lib.IsPathSeparator (lib.Base path).data.reverse [] = ext at hpre
  rw [hpre]
  simp

theorem formatInt_natCast (k : Nat) : FormatInt (k : Int) = FormatUint k := by
  have : ¬ ((k : Int) < 0) := by omega
  simp [FormatInt, this]

theorem intIncr_of_lt (intSize : Nat) (j : Nat) (h : j + 1 < 2 ^ (intSize - 1)) :
    intIncr intSize (j : Int) = ((j + 1 : Nat) : Int) := by
  have hpos : 1 ≤ intSize := by
    by_contra hc
    have : intSize = 0 := by omega
    rw [this] at h
    simp at h
  have hpow : (2 : Int) ^ intSize = 2 * 2 ^ (intSize - 1) := by
    conv_lhs => rw [show intSize = (intSize - 1) + 1 by omega]
    rw [pow_succ]; ring
  have hH : ((j + 1 : Nat) : Int) < 2 ^ (intSize - 1) := by exact_mod_cast h
  have hH0 : (0 : Int) < 2 ^ (intSize - 1) := by positivity
  unfold intIncr
  rw [hpow, Int.emod_eq_of_lt (by omega) (by push_cast at hH ⊢; omega)]
  push_cast
  ring

theorem getUnusedPath.loop_reaches (lib : PathLib) (intSize : Nat) (fs : FileSystem)
    (path : String) (k : Nat) (hk : k < 2 ^ (intSize - 1))
    (hfree : fs.IsNotExist (getUnusedPath.newPath lib path k) = true)
    (hmin : ∀ j : Nat, 1 ≤ j → j < k → fs.IsNotExist (getUnusedPath.newPath lib path j) = false)
    (n j : Nat) (hj : j + n = k) (hj1 : 1 ≤ j) (fuel : Nat) (hfuel : n + 1 ≤ fuel) :
    getUnusedPath.loop lib intSize fs path fuel (j : Int) =
      some (getUnusedPath.newPath lib path k) := by
  induction n generalizing j fuel with
  | zero =>
    obtain ⟨f, rfl⟩ : ∃ f, fuel = f + 1 := ⟨fuel - 1, by omega⟩
    have : j = k := by omega
    subst this
    simp [getUnusedPath.loop, hfree]
  | succ n ih =>
    obtain ⟨f, rfl⟩ : ∃ f, fuel = f + 1 := ⟨fuel - 1, by omega⟩
    have hnot := hmin j hj1 (by omega)
    simp only [getUnusedPath.loop, hnot, Bool.false_eq_true, ↓reduceIte]
    rw [intIncr_of_lt intSize j (by omega)]
    exact ih (j + 1) (by omega) (by omega) f (by omega)

theorem getUnusedPath.loop_unused (lib : PathLib) (intSize : Nat) (fs : FileSystem)
    (path : String) (fuel : Nat) (index : Int) (unused : String)
    (h : getUnusedPath.loop lib intSize fs path fuel index = some unused) :
    fs.IsNotExist unused = true := by
  induction fuel generalizing index with
  | zero => simp [getUnusedPath.loop] at h
  | succ fuel ih =>
    simp only [getUnusedPath.loop] at h
    by_cases hfree : fs.IsNotExist (getUnusedPath.newPath lib path index) = true
    · simp only [hfree, ↓reduceIte, Option.some.injEq] at h
      rw [← h]; exact hfree
    · simp only [hfree, Bool.false_eq_true, ↓reduceIte] at h
      exact ih _ h

theorem getUnusedPath_unused (lib : PathLib) (intSize : Nat) (fs : FileSystem) (fuel : Nat)
    (path unused : String) (h : getUnusedPath lib intSize fs fuel path = some unused) :
    fs.IsNotExist unused = true := by
  unfold getUnusedPath at h
  by_cases hp : fs.IsNotExist path = true
  · simp only [hp, ↓reduceIte, Option.some.injEq] at h
    rw [← h]; exact hp
  · simp only [hp, Bool.false_eq_true, ↓reduceIte] at h
    exact getUnusedPath.loop_unused lib intSize fs path fuel 1 unused h

theorem FileSystem.files_of_isNotExist (fs : FileSystem) (path : String)
    (h : fs.IsNotExist path = true) : fs.files path = none := by
  simp only [FileSystem.IsNotExist, Bool.and_eq_true, Option.isNone_iff_eq_none] at h
  exact h.1

theorem FileSystem.write_files_of_ne (fs : FileSystem) (name : String) (data : List Nat)
    (q : String) (hne : q ≠ name) : (fs.Write name data).1.files q = fs.files q := by
  unfold FileSystem.Write
  split <;> simp only [Function.update_noteq hne]

theorem FileSystem.write_files_of_ok (fs : FileSystem) (name : String) (data : List Nat)
    (hok : (fs.Write name data).2 = true) :
    (fs.Write name data).1.files name = some ((fs.files name).getD [] ++ data) := by
  unfold FileSystem.Write at hok ⊢
  split
  · simp only [Function.update_same]
  · rename_i n hn
    simp only [hn] at hok
    cases hok

theorem writeFile_keeps_files (lib : PathLib) (intSize : Nat) (fuel : Nat) (path : String)
    (data : List Nat) (fs fs' : FileSystem) (ok : Bool)
    (h : writeFile lib intSize fuel path data fs = some (fs', ok)) (q : String) (c : List Nat)
    (hq : fs.files q = some c) : fs'.files q = some c := by
  unfold writeFile at h
  cases hu : getUnusedPath lib intSize fs fuel path with
  | none => simp [hu] at h
  | some unused =>
    have hnone := fs.files_of_isNotExist unused (getUnusedPath_unused lib intSize fs fuel path unused hu)
    have hne : q ≠ unused := by
      intro heq
      rw [heq, hnone] at hq
      cases hq
    simp only [hu, os.Create] at h
    by_cases hc : fs.createError unused = true
    · simp only [hc, ↓reduceIte, Option.some.injEq, Prod.mk.injEq] at h
      rw [← h.1]; exact hq
    · simp only [hc, Bool.false_eq_true, ↓reduceIte, Option.some.injEq] at h
      have hfs : fs' = (({ fs with files := Function.update fs.files unused (some []) } :
          FileSystem).Write unused data).1 := by rw [h]
      rw [hfs, FileSystem.write_files_of_ne _ _ _ _ hne]
      simp only [Function.update_noteq hne]
      exact hq

theorem saveLoop_keeps_files (lib : PathLib) (intSize : Nat) (fuel : Nat) (path : String)
    (chunks : List (List Nat)) (i : Nat) (fs fs' : FileSystem) (ok : Bool)
    (h : View.SaveWebFrameToPDF.loop lib intSize fuel path chunks i fs = some (fs', ok))
    (q : String) (c : List Nat) (hq : fs.files q = some c) : fs'.files q = some c := by
  induction chunks generalizing i fs with
  | nil =>
    simp only [View.SaveWebFrameToPDF.loop, Option.some.injEq, Prod.mk.injEq] at h
    rw [← h.1]; exact hq
  | cons chunk rest ih =>
    simp only [View.SaveWebFrameToPDF.loop] at h
    cases hw : writeFile lib intSize fuel (getFilePathWithIndex lib path ((i : Int) + 1)) chunk fs
      with
    | none => simp [hw] at h
    | some r =>
      obtain ⟨fs₁, ok₁⟩ := r
      have hq₁ := writeFile_keeps_files lib intSize fuel _ chunk fs fs₁ ok₁ hw q c hq
      cases ok₁ with
      | false =>
        simp only [hw, Option.some.injEq, Prod.mk.injEq] at h
        rw [← h.1]; exact hq₁
      | true =>
        simp only [hw] at h
        exact ih (i + 1) fs₁ h hq₁

theorem saveWebFrameToPDF_keeps_files (lib : PathLib) (intSize : Nat) (fuel : Nat)
    (path : String) (datas : Option (List (List Nat))) (fs fs' : FileSystem) (ok : Bool)
    (h : View.SaveWebFrameToPDF lib intSize fuel path datas fs = some (fs', ok))
    (q : String) (c : List Nat) (hq : fs.files q = some c) : fs'.files q = some c := by
  unfold View.SaveWebFrameToPDF at h
  split at h
  · simp only [Option.some.injEq, Prod.mk.injEq] at h; rw [← h.1]; exact hq
  · simp only [Option.some.injEq, Prod.mk.injEq] at h; rw [← h.1]; exact hq
  · exact writeFile_keeps_files lib intSize fuel path _ fs fs' ok h q c hq
  · exact saveLoop_keeps_files lib intSize fuel path _ 0 fs fs' ok h q c hq

theorem writeFile_of_unused (lib : PathLib) (intSize : Nat) (fuel : Nat) (path unused : String)
    (data : List Nat) (fs : FileSystem)
    (h : getUnusedPath lib intSize fs fuel path = some unused) :
    ∃ fs' ok, writeFile lib intSize fuel path data fs = some (fs', ok) ∧
      (ok = true → fs'.files unused = some data) := by
  by_cases hc : fs.createError unused = true
  · exact ⟨fs, false, by simp [writeFile, h, os.Create, hc], fun hok => by cases hok⟩
  · refine ⟨(({ fs with files := Function.update fs.files unused (some []) } : FileSystem).Write
      unused data).1, (({ fs with files := Function.update fs.files unused (some []) } :
        FileSystem).Write unused data).2, by simp [writeFile, h, os.Create, hc], fun hok => ?_⟩
    rw [FileSystem.write_files_of_ok _ _ _ hok]
    simp

/-- When the path itself or one of the names that the loop forms with a
positive `int` index is reported as not existing by `os.Stat`, `getUnusedPath`
returns, with enough rounds, a path that `os.Stat` reports as not existing and
behind which there is no file: the path itself when it does not exist, and
otherwise the directory joined to the base name with `(k)` put in before its
extension, for the smallest `k >= 1` whose path does not exist. `writeFile`
then returns, writing to that path, and neither `writeFile` nor
`SaveWebFrameToPDF` ever changes a file that was there before the call. -/
theorem getUnusedPath_returns_unused (lib : PathLib) (intSize : Nat) (fs : FileSystem)
    (path : String)
    (hfree : fs.IsNotExist path = true ∨
      ∃ k : Nat, 1 ≤ k ∧ k < 2 ^ (intSize - 1) ∧
        fs.IsNotExist (getUnusedPath.newPath lib path k) = true) :
    ∃ (fuel₀ : Nat) (unused : String),
      (∀ fuel, fuel₀ ≤ fuel → getUnusedPath lib intSize fs fuel path = some unused) ∧
      fs.IsNotExist unused = true ∧ fs.files unused = none ∧
      (fs.IsNotExist path = true → unused = path) ∧
      (fs.IsNotExist path = false → ∃ k : Nat, 1 ≤ k ∧
        unused = lib.Join (lib.Dir path)
          (baseWithoutExt lib path ++ "(" ++ FormatUint k ++ ")" ++
            filepath.Ext lib (lib.Base path)) ∧
        ∀ j : Nat, 1 ≤ j → j < k →
          fs.IsNotExist (getUnusedPath.newPath lib path j) = false) ∧
      baseWithoutExt lib path ++ filepath.Ext lib (lib.Base path) = lib.Base path ∧
      (∀ data fuel, fuel₀ ≤ fuel →
        ∃ fs' ok, writeFile lib intSize fuel path data fs = some (fs', ok) ∧
          (ok = true → fs'.files unused = some data)) ∧
      (∀ data fuel fs' ok, writeFile lib intSize fuel path data fs = some (fs', ok) →
        ∀ q c, fs.files q = some c → fs'.files q = some c) ∧
      (∀ datas fuel fs' ok,
        View.SaveWebFrameToPDF lib intSize fuel path datas fs = some (fs', ok) →
        ∀ q c, fs.files q = some c → fs'.files q = some c) := by
  have hkeep : (∀ data fuel fs' ok, writeFile lib intSize fuel path data fs = some (fs', ok) →
        ∀ q c, fs.files q = some c → fs'.files q = some c) ∧
      (∀ datas fuel fs' ok,
        View.SaveWebFrameToPDF lib intSize fuel path datas fs = some (fs', ok) →
        ∀ q c, fs.files q = some c → fs'.files q = some c) :=
    ⟨fun data fuel fs' ok h q c hq => writeFile_keeps_files lib intSize fuel path data fs fs' ok h q c hq,
     fun datas fuel fs' ok h q c hq =>
      saveWebFrameToPDF_keeps_files lib intSize fuel path datas fs fs' ok h q c hq⟩
  by_cases hp : fs.IsNotExist path = true
  · have hget : ∀ fuel, 0 ≤ fuel → getUnusedPath lib intSize fs fuel path = some path :=
      fun fuel _ => by simp [getUnusedPath, hp]
    refine ⟨0, path, hget, hp, fs.files_of_isNotExist path hp, fun _ => rfl, ?_,
      baseWithoutExt_append_ext lib path, ?_, hkeep⟩
    · intro hfalse
      rw [hp] at hfalse
      cases hfalse
    · intro data fuel hfuel
      exact writeFile_of_unused lib intSize fuel path path data fs (hget fuel hfuel)
  · have hex : ∃ k : Nat, 1 ≤ k ∧ k < 2 ^ (intSize - 1) ∧
        fs.IsNotExist (getUnusedPath.newPath lib path k) = true := by
      rcases hfree with h | h
      · exact absurd h hp
      · exact h
    obtain ⟨hk1, hk, hkfree⟩ := Nat.find_spec hex
    have hmin : ∀ j : Nat, 1 ≤ j → j < Nat.find hex →
        fs.IsNotExist (getUnusedPath.newPath lib path j) = false := by
      intro j hj1 hj
      have := Nat.find_min hex hj
      simp only [not_and, Bool.not_eq_true] at this
      exact this hj1 (by omega)
    have hget : ∀ fuel, Nat.find hex ≤ fuel → getUnusedPath lib intSize fs fuel path =
        some (getUnusedPath.newPath lib path (Nat.find hex)) := by
      intro fuel hfuel
      simp only [getUnusedPath, hp, Bool.false_eq_true, ↓reduceIte]
      have := getUnusedPath.loop_reaches lib intSize fs path (Nat.find hex) hk hkfree hmin
        (Nat.find hex - 1) 1 (by omega) (le_refl 1) fuel (by omega)
      exact_mod_cast this
    refine ⟨Nat.find hex, getUnusedPath.newPath lib path (Nat.find hex), hget, hkfree,
      fs.files_of_isNotExist _ hkfree, fun h => absurd h hp, ?_,
      baseWithoutExt_append_ext lib path, ?_, hkeep⟩
    · intro _
      refine ⟨Nat.find hex, hk1, ?_, hmin⟩
      simp only [getUnusedPath.newPath, formatInt_natCast]
    · intro data fuel hfuel
      exact writeFile_of_unused lib intSize fuel path _ data fs (hget fuel hfuel)

/-- The unused path at a concrete file system: "out.pdf" and "out(1).pdf" are
there, so that the unused path of "out.pdf" is "out(2).pdf". -/
theorem getUnusedPath_returns_unused_witness :
    ∃ (fuel₀ : Nat) (unused : String),
      (∀ fuel, fuel₀ ≤ fuel →
        getUnusedPath PathLib.flat 64 FileSystem.sample fuel "out.pdf" = some unused) ∧
      FileSystem.sample.IsNotExist unused = true ∧ FileSystem.sample.files unused = none ∧
      (FileSystem.sample.IsNotExist "out.pdf" = true → unused = "out.pdf") ∧
      (FileSystem.sample.IsNotExist "out.pdf" = false → ∃ k : Nat, 1 ≤ k ∧
        unused = PathLib.flat.Join (PathLib.flat.Dir "out.pdf")
          (baseWithoutExt PathLib.flat "out.pdf" ++ "(" ++ FormatUint k ++ ")" ++
            filepath.Ext PathLib.flat (PathLib.flat.Base "out.pdf")) ∧
        ∀ j : Nat, 1 ≤ j → j < k →
          FileSystem.sample.IsNotExist (getUnusedPath.newPath PathLib.flat "out.pdf" j) = false) ∧
      baseWithoutExt PathLib.flat "out.pdf" ++
        filepath.Ext PathLib.flat (PathLib.flat.Base "out.pdf") = PathLib.flat.Base "out.pdf" ∧
      (∀ data fuel, fuel₀ ≤ fuel →
        ∃ fs' ok, writeFile PathLib.flat 64 fuel "out.pdf" data FileSystem.sample =
            some (fs', ok) ∧
          (ok = true → fs'.files unused = some data)) ∧
      (∀ data fuel fs' ok,
        writeFile PathLib.flat 64 fuel "out.pdf" data FileSystem.sample = some (fs', ok) →
        ∀ q c, FileSystem.sample.files q = some c → fs'.files q = some c) ∧
      (∀ datas fuel fs' ok,
        View.SaveWebFrameToPDF PathLib.flat 64 fuel "out.pdf" datas FileSystem.sample =
          some (fs', ok) →
        ∀ q c, FileSystem.sample.files q = some c → fs'.files q = some c) :=
  getUnusedPath_returns_unused PathLib.flat 64 FileSystem.sample "out.pdf"
    (Or.inr ⟨2, by decide, by decide, by decide⟩)

theorem getUnusedPath.loop_none (lib : PathLib) (intSize : Nat) (fs : FileSystem) (path : String)
    (h : ∀ index : Int, fs.IsNotExist (getUnusedPath.newPath lib path index) = false)
    (fuel : Nat) (index : Int) : getUnusedPath.loop lib intSize fs path fuel index = none := by
  induction fuel generalizing index with
  | zero => rfl
  | succ fuel ih => simp only [getUnusedPath.loop, h index, Bool.false_eq_true, ↓reduceIte, ih]

theorem underFile_newPath (index : Int) :
    (getUnusedPath.newPath PathLib.slash "f/x.pdf" index).data.take 2 = ['f', '/'] := by
  have hdir : PathLib.slash.Dir "f/x.pdf" = "f" := by decide
  have hjoin : ∀ name, PathLib.slash.Join "f" name = "f" ++ "/" ++ name := fun name => by
    simp [PathLib.slash]
  simp only [getUnusedPath.newPath, hdir, hjoin, String.data_append]
  rfl

/-- C12 (the code at the failing input): in a file system whose only file is
the regular file "f", neither "f/x.pdf" nor any name that the loop forms from
it exists, and yet `getUnusedPath` of "f/x.pdf" returns within no number of
rounds, and neither do `writeFile` and `SaveWebFrameToPDF`, which call it:
`os.Stat` fails on each of these paths with an error that is not a not-exist
error, and the code takes every such failure for a file that exists. -/
theorem getUnusedPath_never_returns_under_file :
    FileSystem.underFile.files "f/x.pdf" = none ∧
      (∀ index : Int,
        FileSystem.underFile.files (getUnusedPath.newPath PathLib.slash "f/x.pdf" index) = none) ∧
      (∀ fuel : Nat,
        getUnusedPath PathLib.slash 64 FileSystem.underFile fuel "f/x.pdf" = none) ∧
      (∀ (fuel : Nat) (data : List Nat),
        writeFile PathLib.slash 64 fuel "f/x.pdf" data FileSystem.underFile = none) ∧
      (∀ (fuel : Nat) (chunk : List Nat),
        View.SaveWebFrameToPDF PathLib.slash 64 fuel "f/x.pdf" (some [chunk])
          FileSystem.underFile = none) := by
  have hstat : ∀ index : Int, FileSystem.underFile.IsNotExist
      (getUnusedPath.newPath PathLib.slash "f/x.pdf" index) = false := fun index => by
    simp [FileSystem.IsNotExist, FileSystem.underFile, underFile_newPath index]
  have hget : ∀ fuel : Nat,
      getUnusedPath PathLib.slash 64 FileSystem.underFile fuel "f/x.pdf" = none := fun fuel => by
    have h0 : FileSystem.underFile.IsNotExist "f/x.pdf" = false := by decide
    simp only [getUnusedPath, h0, Bool.false_eq_true, ↓reduceIte]
    exact getUnusedPath.loop_none PathLib.slash 64 FileSystem.underFile "f/x.pdf" hstat fuel 1
  have hwrite : ∀ (fuel : Nat) (data : List Nat),
      writeFile PathLib.slash 64 fuel "f/x.pdf" data FileSystem.underFile = none :=
    fun fuel data => by simp only [writeFile, hget fuel]
  refine ⟨by decide, fun index => ?_, hget, hwrite, fun fuel chunk => ?_⟩
  · have hne : getUnusedPath.newPath PathLib.slash "f/x.pdf" index ≠ "f" := by
      intro heq
      have := underFile_newPath index
      rw [heq] at this
      revert this
      decide
    simp only [FileSystem.underFile, hne, ↓reduceIte]
  · simp only [View.SaveWebFrameToPDF, hwrite fuel chunk]

end MiniBlink
